import Mathlib

/-!
Shallow embedding of the feedforward neural-network engine
(src/activations.rs, src/losses.rs, src/dataset.rs, src/network.rs,
src/network/layer.rs).

Modelling conventions:
* `f32` arithmetic is modelled exactly by `ℚ` (the claims under study are
  structural and algebraic, not about rounding).
* `nalgebra` vectors are Lean `List ℚ`; a matrix is its list of rows
  (`output_size` rows of length `input_size`); `nrows`/`ncols` of the
  weight matrix give `output_size`/`input_size` as in the source.
* Rust `&mut self` methods become state-passing functions returning the
  updated value next to the `Except` result, so that state mutated before
  an early error return is still observable.
* Randomness (`rand`) is modelled by an arbitrary stream of drawn values
  `ℕ → ℚ`; no claim depends on the drawn values.
* Imperative index loops (`Layer::backpropagation_step`) are embedded as
  left folds over `List.range` with `List.set`/`List.getD` for the
  indexed updates and reads.
-/

/-- `ActivationFn` (src/activations.rs): a scalar function with its
derivative; `derivative x y` receives the pre-activation `x` and the
already computed activation `y`. -/
structure ActivationFn where
  apply : ℚ → ℚ
  derivative : ℚ → ℚ → ℚ

/-- `Sigmoid.derivative` (src/activations.rs): `y * (1 - y)`; its `apply`
(`1/(1+e^-x)`) is transcendental and is kept abstract here, no claim
evaluates it. -/
def sigmoidDerivative : ℚ → ℚ → ℚ := fun _ activation => activation * (1 - activation)

/-- `Layer` (src/network/layer.rs). -/
structure Layer where
  weights : List (List ℚ)
  weight_gradient : List (List ℚ)
  biases : List ℚ
  bias_gradient : List ℚ
  activation_fn : ActivationFn
  previous_inputs : List ℚ
  previous_weighted_sums : List ℚ

/-- `LayerError` (src/network/layer.rs). -/
inductive LayerError where
  | InputSizeMismatch (layer_input_size given_input_size : ℕ)
  | ZeroInputSize
  | ZeroOutputSize
deriving DecidableEq

/-- `check_sizes` (src/network/layer.rs). -/
def check_sizes (input_size output_size : ℕ) : Except LayerError Unit :=
  if input_size = 0 then .error .ZeroInputSize
  else if output_size = 0 then .error .ZeroOutputSize
  else .ok ()

/-- `Layer::input_size` (src/network/layer.rs): `weights.ncols()` — the
common row length of the row list. -/
def Layer.input_size (l : Layer) : ℕ := (l.weights.headD []).length

/-- `Layer::output_size` (src/network/layer.rs): `weights.nrows()`. -/
def Layer.output_size (l : Layer) : ℕ := l.weights.length

/-- `Layer::zeros` (src/network/layer.rs). -/
def Layer.zeros (input_size output_size : ℕ) (activation_fn : ActivationFn) :
    Except LayerError Layer :=
  match check_sizes input_size output_size with
  | .error e => .error e
  | .ok _ => .ok {
      weights := List.replicate output_size (List.replicate input_size 0)
      weight_gradient := List.replicate output_size (List.replicate input_size 0)
      biases := List.replicate output_size 0
      bias_gradient := List.replicate output_size 0
      activation_fn := activation_fn
      previous_inputs := List.replicate input_size 0
      previous_weighted_sums := List.replicate output_size 0 }

/-- `random_vec` (src/network/layer.rs), with the distribution modelled as
an arbitrary stream of drawn values. -/
def random_vec (size : ℕ) (dist : ℕ → ℚ) : List ℚ := (List.range size).map dist

/-- `Layer::random` (src/network/layer.rs): the `output_size * input_size`
weight draws fill the matrix column-major (as `DMatrix::from_vec` does),
the next `output_size` draws fill the biases. -/
def Layer.random (input_size output_size : ℕ) (activation_fn : ActivationFn)
    (dist : ℕ → ℚ) : Except LayerError Layer :=
  match check_sizes input_size output_size with
  | .error e => .error e
  | .ok _ => .ok {
      weights := (List.range output_size).map (fun o =>
        (List.range input_size).map (fun i =>
          (random_vec (output_size * input_size) dist).getD (i * output_size + o) 0))
      weight_gradient := List.replicate output_size (List.replicate input_size 0)
      biases := (List.range output_size).map (fun o =>
        (random_vec output_size (fun k => dist (output_size * input_size + k))).getD o 0)
      bias_gradient := List.replicate output_size 0
      activation_fn := activation_fn
      previous_inputs := List.replicate input_size 0
      previous_weighted_sums := List.replicate output_size 0 }

/-- `Layer::check_input_size` (src/network/layer.rs). -/
def Layer.check_input_size (l : Layer) (input_size : ℕ) : Except LayerError Unit :=
  if l.input_size ≠ input_size then
    .error (.InputSizeMismatch l.input_size input_size)
  else .ok ()

/-- Row–vector dot product, one coordinate of `&self.weights * &inputs`. -/
def dotProduct (xs ys : List ℚ) : ℚ := (List.zipWith (fun a b => a * b) xs ys).sum

/-- `Layer::forward` (src/network/layer.rs): checks the input size, caches
the weighted sums and the inputs, returns the activations.  The updated
layer is returned next to the output; on error the layer is unchanged
(the check precedes every write). -/
def Layer.forward (l : Layer) (inputs : List ℚ) : Except LayerError (Layer × List ℚ) :=
  match l.check_input_size inputs.length with
  | .error e => .error e
  | .ok _ =>
    let ws := List.zipWith (fun row b => dotProduct row inputs + b) l.weights l.biases
    .ok ({ l with previous_weighted_sums := ws, previous_inputs := inputs },
         ws.map l.activation_fn.apply)

/-- The loop-local `bias_partial_derivative` of
`Layer::backpropagation_step` (src/network/layer.rs):
`activation_fn.derivative(previous_weighted_sums[o], previous_outputs[o]) *
output_partial_gradient[o]`. -/
def Layer.bias_partial_derivative (l : Layer)
    (previous_outputs output_partial_gradient : List ℚ) (o : ℕ) : ℚ :=
  l.activation_fn.derivative (l.previous_weighted_sums.getD o 0) (previous_outputs.getD o 0) *
    output_partial_gradient.getD o 0

/-- The inner `for input_index in 0..input_size` body of
`Layer::backpropagation_step`: one step updates row `o` of the weight
gradient and entry `i` of the input partial gradient. -/
def bpInner (l : Layer) (o : ℕ) (d : ℚ) :
    List (List ℚ) × List ℚ → ℕ → List (List ℚ) × List ℚ :=
  fun st i =>
    let row := st.1.getD o []
    (st.1.set o (row.set i (row.getD i 0 + l.previous_inputs.getD i 0 * d)),
     st.2.set i (st.2.getD i 0 + (l.weights.getD o []).getD i 0 * d))

/-- The outer `for output_index in 0..output_size` body of
`Layer::backpropagation_step`: accumulates into the bias gradient and runs
the inner loop over the inputs. -/
def bpOuter (l : Layer) (previous_outputs output_partial_gradient : List ℚ) :
    List ℚ × List (List ℚ) × List ℚ → ℕ → List ℚ × List (List ℚ) × List ℚ :=
  fun st o =>
    let d := l.bias_partial_derivative previous_outputs output_partial_gradient o
    let bg := st.1.set o (st.1.getD o 0 + d)
    let inner := (List.range l.input_size).foldl (bpInner l o d) (st.2.1, st.2.2)
    (bg, inner.1, inner.2)

/-- `Layer::backpropagation_step` (src/network/layer.rs): both loops, run
on the zero-initialised input partial gradient; returns the updated layer
and the input partial gradient. -/
def Layer.backpropagation_step (l : Layer)
    (previous_outputs output_partial_gradient : List ℚ) : Layer × List ℚ :=
  let st := (List.range l.output_size).foldl
    (bpOuter l previous_outputs output_partial_gradient)
    (l.bias_gradient, l.weight_gradient, List.replicate l.input_size 0)
  ({ l with bias_gradient := st.1, weight_gradient := st.2.1 }, st.2.2)

/-- `Layer::apply_gradient` (src/network/layer.rs): `weights +=
weight_gradient * scale`, `biases += bias_gradient * scale`, then both
accumulators are filled with zero. -/
def Layer.apply_gradient (l : Layer) (scale : ℚ) : Layer :=
  { l with
    weights := List.zipWith (fun wr gr => List.zipWith (fun w g => w + g * scale) wr gr)
      l.weights l.weight_gradient
    biases := List.zipWith (fun b g => b + g * scale) l.biases l.bias_gradient
    weight_gradient := l.weight_gradient.map (fun r => r.map (fun _ => 0))
    bias_gradient := l.bias_gradient.map (fun _ => 0) }

/-- `Layer::get_previous_input` (src/network/layer.rs). -/
def Layer.get_previous_input (l : Layer) : List ℚ := l.previous_inputs

/-- `LossFnError` (src/losses.rs). -/
inductive LossFnError where
  | OutputSizeMismatch (given_output_size expected_output_size : ℕ)
  | OutputIndexOutOfRange (output_size output_index : ℕ)
deriving DecidableEq

/-- `LossFnChecked` (src/losses.rs): the unchecked loss function pair. -/
structure LossFnChecked where
  apply : List ℚ → List ℚ → ℚ
  partial_derivative : List ℚ → List ℚ → ℕ → ℚ

/-- The blanket `impl LossFn for T`'s `apply` (src/losses.rs): size check,
then the unchecked loss. -/
def LossFn.apply (f : LossFnChecked) (output expected_output : List ℚ) :
    Except LossFnError ℚ :=
  if output.length ≠ expected_output.length then
    .error (.OutputSizeMismatch output.length expected_output.length)
  else .ok (f.apply output expected_output)

/-- The blanket `impl LossFn for T`'s `partial_derivative` (src/losses.rs):
size check, index check, then the unchecked partial derivative. -/
def LossFn.partial_derivative (f : LossFnChecked) (output expected_output : List ℚ)
    (with_respect_to : ℕ) : Except LossFnError ℚ :=
  if output.length ≠ expected_output.length then
    .error (.OutputSizeMismatch output.length expected_output.length)
  else if output.length ≤ with_respect_to then
    .error (.OutputIndexOutOfRange output.length with_respect_to)
  else .ok (f.partial_derivative output expected_output with_respect_to)

/-- Modelled from the spec: `Network::backpropagate` (src/network.rs:101)
calls `loss.partial_gradient`, which no file under src/ defines (the loss
interface evolved; src/losses.rs still exposes only the per-index
`partial_derivative`).  Per the spec, `partial_gradient(output, expected)`
returns the vector of the per-component partial derivatives of the loss,
with the same size-mismatch failure as `apply`. -/
def LossFn.partial_gradient (f : LossFnChecked) (output expected_output : List ℚ) :
    Except LossFnError (List ℚ) :=
  if output.length ≠ expected_output.length then
    .error (.OutputSizeMismatch output.length expected_output.length)
  else .ok ((List.range output.length).map
    (fun i => f.partial_derivative output expected_output i))

/-- `MSE` (src/losses.rs): mean squared error and its per-index partial
derivative. -/
def MSE : LossFnChecked where
  apply := fun output expected_output =>
    (List.zipWith (fun x y => (x - y) * (x - y)) output expected_output).sum /
      (output.length : ℚ)
  partial_derivative := fun output expected_output with_respect_to =>
    2 * (output.getD with_respect_to 0 - expected_output.getD with_respect_to 0) /
      (output.length : ℚ)

/-- `Sample` (src/dataset.rs). -/
structure Sample where
  inputs : List ℚ
  expected_outputs : List ℚ
deriving DecidableEq

/-- `Network` (src/network.rs). -/
structure Network where
  layers : List Layer

/-- `NetworkError` (src/network.rs). -/
inductive NetworkError where
  | TooFewLayers (n : ℕ)
  | ZeroLayerSize (i : ℕ)
  | LayerError (e : LayerError)
  | LossFnError (e : LossFnError)
deriving DecidableEq

/-- `check_layer_sizes` (src/network.rs): fewer than two sizes is
`TooFewLayers`, the first zero size is `ZeroLayerSize` at its index. -/
def check_layer_sizes (layer_sizes : List ℕ) : Except NetworkError Unit :=
  if layer_sizes.length < 2 then .error (.TooFewLayers layer_sizes.length)
  else
    match layer_sizes.findIdx? (fun x => x == 0) with
    | some layer_index => .error (.ZeroLayerSize layer_index)
    | none => .ok ()

/-- The `collect` over the constructor results in `construct_layers`
(src/network.rs): stops at the first constructor error. -/
def construct_layers_go (constructor : ℕ → ℕ → Except LayerError Layer) :
    List (ℕ × ℕ) → Except LayerError (List Layer)
  | [] => .ok []
  | p :: rest =>
    match constructor p.1 p.2 with
    | .error e => .error e
    | .ok l =>
      match construct_layers_go constructor rest with
      | .error e => .error e
      | .ok ls => .ok (l :: ls)

/-- `construct_layers` (src/network.rs): consecutive size pairs
(`zip` with `skip(1)`) become the layers' (input, output) dimensions. -/
def construct_layers (layer_sizes : List ℕ)
    (constructor : ℕ → ℕ → Except LayerError Layer) : Except LayerError (List Layer) :=
  construct_layers_go constructor (layer_sizes.zip layer_sizes.tail)

/-- `Network::zeros` (src/network.rs). -/
def Network.zeros (layer_sizes : List ℕ) (activation_fn : ActivationFn) :
    Except NetworkError Network :=
  match check_layer_sizes layer_sizes with
  | .error e => .error e
  | .ok _ =>
    match construct_layers layer_sizes (fun i o => Layer.zeros i o activation_fn) with
    | .error e => .error (.LayerError e)
    | .ok layers => .ok { layers := layers }

/-- `Network::random` (src/network.rs), the distribution modelled as an
arbitrary stream of drawn values. -/
def Network.random (layer_sizes : List ℕ) (activation_fn : ActivationFn)
    (dist : ℕ → ℚ) : Except NetworkError Network :=
  match check_layer_sizes layer_sizes with
  | .error e => .error e
  | .ok _ =>
    match construct_layers layer_sizes (fun i o => Layer.random i o activation_fn dist) with
    | .error e => .error (.LayerError e)
    | .ok layers => .ok { layers := layers }

/-- The `try_fold` of `Network::forward` (src/network.rs): each layer's
output feeds the next layer; the layers mutated before an error remain
mutated, the failing and later layers keep their state. -/
def forward_layers : List Layer → List ℚ → List Layer × Except LayerError (List ℚ)
  | [], activations => ([], .ok activations)
  | l :: ls, activations =>
    match l.forward activations with
    | .error e => (l :: ls, .error e)
    | .ok (l2, out) =>
      let r := forward_layers ls out
      (l2 :: r.1, r.2)

/-- `Network::forward` (src/network.rs). -/
def Network.forward (n : Network) (input : List ℚ) :
    Network × Except NetworkError (List ℚ) :=
  let r := forward_layers n.layers input
  ({ layers := r.1 }, r.2.mapError NetworkError.LayerError)

/-- The backward loop of `Network::backpropagate` (src/network.rs): the
last layer's step receives the network outputs; every earlier layer's step
receives the successor layer's `get_previous_input()` (unchanged by the
successor's own step) and the successor's returned gradient. -/
def backward_pass (outputs : List ℚ) : List Layer → List ℚ → List Layer × List ℚ
  | [], g => ([], g)
  | l :: ls, g =>
    match backward_pass outputs ls g with
    | ([], g1) =>
      let p := l.backpropagation_step outputs g1
      ([p.1], p.2)
    | (l2 :: t, g1) =>
      let p := l.backpropagation_step l2.get_previous_input g1
      (p.1 :: l2 :: t, p.2)

/-- `Network::backpropagate` (src/network.rs): per sample, one full
forward pass, the loss gradient at the outputs, then the backward loop;
stops at the first error, keeping the state mutated so far. -/
def Network.backpropagate (n : Network) (loss : LossFnChecked) :
    List Sample → Network × Except NetworkError Unit
  | [] => (n, .ok ())
  | sample :: rest =>
    match n.forward sample.inputs with
    | (n1, .error e) => (n1, .error e)
    | (n1, .ok outputs) =>
      match LossFn.partial_gradient loss outputs sample.expected_outputs with
      | .error e => (n1, .error (.LossFnError e))
      | .ok g =>
        let r := backward_pass outputs n1.layers g
        Network.backpropagate { layers := r.1 } loss rest

/-- `Network::learn` (src/network.rs): no-op success on the empty dataset;
otherwise one `backpropagate` over the whole dataset and then one
`apply_gradient(-rate / dataset.len())` per layer. -/
def Network.learn (n : Network) (dataset : List Sample) (loss : LossFnChecked)
    (rate : ℚ) : Network × Except NetworkError Unit :=
  if dataset.isEmpty then (n, .ok ())
  else
    match n.backpropagate loss dataset with
    | (n1, .error e) => (n1, .error e)
    | (n1, .ok _) =>
      ({ layers := n1.layers.map (fun l => l.apply_gradient (-rate / (dataset.length : ℚ))) },
       .ok ())

/-- Well-formedness of a layer of dimensions `isz → osz`: every stored
list has the shape the `nalgebra` types enforce in the source. -/
def LayerWF (l : Layer) (isz osz : ℕ) : Prop :=
  l.weights.length = osz ∧
  (∀ r ∈ l.weights, r.length = isz) ∧
  l.weight_gradient.length = osz ∧
  (∀ r ∈ l.weight_gradient, r.length = isz) ∧
  l.biases.length = osz ∧
  l.bias_gradient.length = osz ∧
  l.previous_inputs.length = isz ∧
  l.previous_weighted_sums.length = osz ∧
  0 < osz ∧ 0 < isz

instance (l : Layer) (isz osz : ℕ) : Decidable (LayerWF l isz osz) := by
  unfold LayerWF
  infer_instance

/-- The layers of a network match a size list: layer `k` has dimensions
`sizes[k] → sizes[k+1]` and is well-formed. -/
def layers_match : List Layer → List ℕ → Prop
  | [], sizes => sizes.length = 1
  | l :: ls, i :: o :: rest => LayerWF l i o ∧ layers_match ls (o :: rest)
  | _ :: _, _ => False

instance layers_match_decidable : (ls : List Layer) → (sizes : List ℕ) →
    Decidable (layers_match ls sizes)
  | [], sizes => by unfold layers_match; infer_instance
  | l :: ls, [] => by unfold layers_match; infer_instance
  | l :: ls, [_] => by unfold layers_match; infer_instance
  | l :: ls, i :: o :: rest =>
    have : Decidable (layers_match ls (o :: rest)) := layers_match_decidable ls (o :: rest)
    by unfold layers_match; infer_instance

/-- Layers equal in everything but the scratch caches. -/
def core_eq (a b : Layer) : Prop :=
  a.weights = b.weights ∧ a.biases = b.biases ∧ a.activation_fn = b.activation_fn ∧
  a.weight_gradient = b.weight_gradient ∧ a.bias_gradient = b.bias_gradient

/-- Layers equal in everything but the gradient accumulators. -/
def frame_eq (a b : Layer) : Prop :=
  a.weights = b.weights ∧ a.biases = b.biases ∧ a.activation_fn = b.activation_fn ∧
  a.previous_inputs = b.previous_inputs ∧ a.previous_weighted_sums = b.previous_weighted_sums

/-- Add an increment to both gradient accumulators of a layer. -/
def Layer.addGrads (l : Layer) (bgd : List ℚ) (wgd : List (List ℚ)) : Layer :=
  { l with
    bias_gradient := List.zipWith (fun a b => a + b) l.bias_gradient bgd
    weight_gradient := List.zipWith (fun r s => List.zipWith (fun a b => a + b) r s)
      l.weight_gradient wgd }

/-- Add per-layer increments to every layer's gradient accumulators. -/
def Network.addGradsNet (n : Network) (incr : List (List ℚ × List (List ℚ))) : Network :=
  { layers := List.zipWith (fun l p => l.addGrads p.1 p.2) n.layers incr }

/-- Per-layer gradient increments shaped like the layers of a network
matching `sizes`. -/
def grads_match : List (List ℚ × List (List ℚ)) → List ℕ → Prop
  | [], sizes => sizes.length = 1
  | p :: ps, i :: o :: rest =>
    p.1.length = o ∧ p.2.length = o ∧ (∀ r ∈ p.2, r.length = i) ∧ grads_match ps (o :: rest)
  | _ :: _, _ => False

/-- Both accumulators of a layer hold only zeros. -/
def zero_grads (l : Layer) : Prop :=
  (∀ x ∈ l.bias_gradient, x = 0) ∧ ∀ r ∈ l.weight_gradient, ∀ x ∈ r, x = 0

instance (l : Layer) : Decidable (zero_grads l) := by
  unfold zero_grads
  infer_instance

/-- A concrete activation for the witnesses: the identity map with
constant derivative 1. -/
def actId : ActivationFn := { apply := fun x => x, derivative := fun _ _ => 1 }

/-- The 1 → 1 zero layer over `actId`, the fixture of the witnesses. -/
def layer0 : Layer :=
  { weights := [[0]], weight_gradient := [[0]], biases := [0], bias_gradient := [0],
    activation_fn := actId, previous_inputs := [0], previous_weighted_sums := [0] }

/-- The single-layer network `Network.zeros [1, 1] actId` evaluates to. -/
def net0 : Network := { layers := [layer0] }

/-- A 1 → 1 layer with a nonzero bias-gradient accumulator, used to
observe whether `apply_gradient` ran. -/
def layer5 : Layer :=
  { weights := [[0]], weight_gradient := [[0]], biases := [0], bias_gradient := [5],
    activation_fn := actId, previous_inputs := [0], previous_weighted_sums := [0] }

/-- The network holding `layer5`. -/
def net5 : Network := { layers := [layer5] }

/-- The all-zero sample of width 1, fixture of the witnesses. -/
def sample0 : Sample := { inputs := [0], expected_outputs := [0] }

/-- A sample whose input length 2 mismatches a 1-input network. -/
def sampleBad : Sample := { inputs := [1, 2], expected_outputs := [0] }

/-! ### List helper lemmas -/

theorem getD_set_self {α : Type} (l : List α) (i : ℕ) (a d : α) (h : i < l.length) :
    (l.set i a).getD i d = a := by
  simp [List.getD_eq_getElem?_getD, List.getElem?_set_self h]

theorem getD_set_ne {α : Type} (l : List α) {i j : ℕ} (a d : α) (h : i ≠ j) :
    (l.set i a).getD j d = l.getD j d := by
  simp [List.getD_eq_getElem?_getD, List.getElem?_set_ne h]

theorem getD_mem {α : Type} (l : List α) (i : ℕ) (d : α) (h : i < l.length) :
    l.getD i d ∈ l := by
  rw [List.getD_eq_getElem?_getD, List.getElem?_eq_getElem h]
  exact List.getElem_mem h

theorem getD_of_length_le {α : Type} (l : List α) (i : ℕ) (d : α) (h : l.length ≤ i) :
    l.getD i d = d := by
  rw [List.getD_eq_getElem?_getD, List.getElem?_eq_none h]
  rfl

theorem list_eq_of_getD {α : Type} (d : α) :
    ∀ (l₁ l₂ : List α), l₁.length = l₂.length →
      (∀ i, i < l₁.length → l₁.getD i d = l₂.getD i d) → l₁ = l₂
  | [], [], _, _ => rfl
  | [], _ :: _, h, _ => by simp at h
  | _ :: _, [], h, _ => by simp at h
  | a :: l₁, b :: l₂, h, hp => by
    have h0 := hp 0 (by simp)
    simp [List.getD] at h0
    have ht : l₁ = l₂ := list_eq_of_getD d l₁ l₂ (by simpa using h)
      (fun i hi => by simpa [List.getD] using hp (i + 1) (by simpa using Nat.succ_lt_succ hi))
    rw [h0, ht]

theorem getD_zipWith {α β γ : Type} (f : α → β → γ) (a : List α) (b : List β)
    (j : ℕ) (da : α) (db : β) (dc : γ) (h1 : j < a.length) (h2 : j < b.length) :
    (List.zipWith f a b).getD j dc = f (a.getD j da) (b.getD j db) := by
  rw [List.getD_eq_getElem?_getD, List.getD_eq_getElem?_getD, List.getD_eq_getElem?_getD,
    List.getElem?_zipWith, List.getElem?_eq_getElem h1, List.getElem?_eq_getElem h2]
  rfl

theorem getD_replicate {α : Type} (n i : ℕ) (a d : α) (h : i < n) :
    (List.replicate n a).getD i d = a := by
  rw [List.getD_eq_getElem?_getD, List.getElem?_replicate]
  simp [h]

theorem getD_map_range {α : Type} (f : ℕ → α) (n i : ℕ) (d : α) (h : i < n) :
    ((List.range n).map f).getD i d = f i := by
  rw [List.getD_eq_getElem?_getD, List.getElem?_map, List.getElem?_range h]
  rfl

theorem forall_mem_of_getD {α : Type} (l : List α) (d : α) (P : α → Prop)
    (h : ∀ j, j < l.length → P (l.getD j d)) : ∀ x ∈ l, P x := by
  intro x hx
  obtain ⟨j, hj, rfl⟩ := List.mem_iff_getElem.mp hx
  have := h j hj
  rwa [List.getD_eq_getElem?_getD, List.getElem?_eq_getElem hj] at this

theorem zipWith_add_zero_left :
    ∀ (z x : List ℚ), (∀ a ∈ z, a = 0) → z.length = x.length →
      List.zipWith (fun a b => a + b) z x = x
  | [], [], _, _ => rfl
  | [], _ :: _, _, h => by simp at h
  | _ :: _, [], _, h => by simp at h
  | a :: z, b :: x, hz, h => by
    have ha : a = 0 := hz a (by simp)
    simp only [List.zipWith_cons_cons, ha, zero_add]
    rw [zipWith_add_zero_left z x (fun c hc => hz c (by simp [hc])) (by simpa using h)]

/-! ### Characterisation of the backpropagation loops -/

theorem bpInner_foldl (l : Layer) (o : ℕ) (d : ℚ) :
    ∀ (n : ℕ) (wg : List (List ℚ)) (ipg : List ℚ),
    o < wg.length → n ≤ (wg.getD o []).length → n ≤ ipg.length →
    ((List.range n).foldl (bpInner l o d) (wg, ipg)).1.length = wg.length ∧
    ((List.range n).foldl (bpInner l o d) (wg, ipg)).2.length = ipg.length ∧
    (∀ j, j ≠ o → ((List.range n).foldl (bpInner l o d) (wg, ipg)).1.getD j [] = wg.getD j []) ∧
    (((List.range n).foldl (bpInner l o d) (wg, ipg)).1.getD o []).length = (wg.getD o []).length ∧
    (∀ i, i < n → (((List.range n).foldl (bpInner l o d) (wg, ipg)).1.getD o []).getD i 0 =
      (wg.getD o []).getD i 0 + l.previous_inputs.getD i 0 * d) ∧
    (∀ i, n ≤ i → (((List.range n).foldl (bpInner l o d) (wg, ipg)).1.getD o []).getD i 0 =
      (wg.getD o []).getD i 0) ∧
    (∀ i, i < n → ((List.range n).foldl (bpInner l o d) (wg, ipg)).2.getD i 0 =
      ipg.getD i 0 + (l.weights.getD o []).getD i 0 * d) ∧
    (∀ i, n ≤ i → ((List.range n).foldl (bpInner l o d) (wg, ipg)).2.getD i 0 = ipg.getD i 0) := by
  intro n
  induction n with
  | zero =>
    intro wg ipg _ _ _
    refine ⟨rfl, rfl, fun j _ => rfl, rfl, fun i hi => absurd hi (by omega), fun i _ => rfl,
      fun i hi => absurd hi (by omega), fun i _ => rfl⟩
  | succ n ih =>
    intro wg ipg ho hrow hipg
    have hrow' : n ≤ (wg.getD o []).length := by omega
    have hipg' : n ≤ ipg.length := by omega
    obtain ⟨L1, L2, Hne, Hlen, Hlt, Hge, Ilt, Ige⟩ := ih wg ipg ho hrow' hipg'
    set r := (List.range n).foldl (bpInner l o d) (wg, ipg) with hr
    have hstep : (List.range (n + 1)).foldl (bpInner l o d) (wg, ipg) = bpInner l o d r n := by
      rw [List.range_succ, List.foldl_append]
      rfl
    have hrowlen : n < (r.1.getD o []).length := by rw [Hlen]; omega
    have hon : o < r.1.length := by rw [L1]; exact ho
    have hin : n < r.2.length := by rw [L2]; omega
    rw [hstep]
    unfold bpInner
    refine ⟨?_, ?_, ?_, ?_, ?_, ?_, ?_, ?_⟩
    · simpa using L1
    · simpa using L2
    · intro j hj
      rw [getD_set_ne _ _ _ (Ne.symm hj)]
      exact Hne j hj
    · rw [getD_set_self _ _ _ _ hon]
      simpa using Hlen
    · intro i hi
      rw [getD_set_self _ _ _ _ hon]
      rcases Nat.lt_or_ge i n with h | h
      · rw [getD_set_ne _ _ _ (by omega : n ≠ i)]
        exact Hlt i h
      · have hni : i = n := by omega
        rw [hni, getD_set_self _ _ _ _ hrowlen, Hge n (le_refl n)]
    · intro i hi
      rw [getD_set_self _ _ _ _ hon, getD_set_ne _ _ _ (by omega : n ≠ i)]
      exact Hge i (by omega)
    · intro i hi
      rcases Nat.lt_or_ge i n with h | h
      · rw [getD_set_ne _ _ _ (by omega : n ≠ i)]
        exact Ilt i h
      · have hni : i = n := by omega
        rw [hni, getD_set_self _ _ _ _ hin, Ige n (le_refl n)]
    · intro i hi
      rw [getD_set_ne _ _ _ (by omega : n ≠ i)]
      exact Ige i (by omega)

theorem bpOuter_foldl (l : Layer) (po opg : List ℚ) :
    ∀ (m : ℕ) (bg : List ℚ) (wg : List (List ℚ)) (ipg : List ℚ),
    m ≤ bg.length → m ≤ wg.length → (∀ r ∈ wg, r.length = l.input_size) →
    l.input_size ≤ ipg.length →
    ((List.range m).foldl (bpOuter l po opg) (bg, wg, ipg)).1.length = bg.length ∧
    ((List.range m).foldl (bpOuter l po opg) (bg, wg, ipg)).2.1.length = wg.length ∧
    (∀ j, (((List.range m).foldl (bpOuter l po opg) (bg, wg, ipg)).2.1.getD j []).length =
      (wg.getD j []).length) ∧
    ((List.range m).foldl (bpOuter l po opg) (bg, wg, ipg)).2.2.length = ipg.length ∧
    (∀ o, o < m → ((List.range m).foldl (bpOuter l po opg) (bg, wg, ipg)).1.getD o 0 =
      bg.getD o 0 + l.bias_partial_derivative po opg o) ∧
    (∀ o, m ≤ o → ((List.range m).foldl (bpOuter l po opg) (bg, wg, ipg)).1.getD o 0 =
      bg.getD o 0) ∧
    (∀ o, o < m → ∀ i, i < l.input_size →
      (((List.range m).foldl (bpOuter l po opg) (bg, wg, ipg)).2.1.getD o []).getD i 0 =
        (wg.getD o []).getD i 0 +
          l.previous_inputs.getD i 0 * l.bias_partial_derivative po opg o) ∧
    (∀ o, m ≤ o → ((List.range m).foldl (bpOuter l po opg) (bg, wg, ipg)).2.1.getD o [] =
      wg.getD o []) ∧
    (∀ i, i < l.input_size →
      ((List.range m).foldl (bpOuter l po opg) (bg, wg, ipg)).2.2.getD i 0 =
        ipg.getD i 0 + ((List.range m).map (fun o =>
          (l.weights.getD o []).getD i 0 * l.bias_partial_derivative po opg o)).sum) ∧
    (∀ i, l.input_size ≤ i →
      ((List.range m).foldl (bpOuter l po opg) (bg, wg, ipg)).2.2.getD i 0 = ipg.getD i 0) := by
  intro m
  induction m with
  | zero =>
    intro bg wg ipg _ _ _ _
    exact ⟨rfl, rfl, fun j => rfl, rfl, fun o ho => absurd ho (by omega), fun o _ => rfl,
      fun o ho => absurd ho (by omega), fun o _ => rfl, fun i _ => by simp, fun i _ => rfl⟩
  | succ m ih =>
    intro bg wg ipg hbg hwg hrows hipg
    obtain ⟨B1, W1, W3, I1, Blt, Bge, Wlt, Wge, Ilt, Ige⟩ :=
      ih bg wg ipg (by omega) (by omega) hrows hipg
    set rm := (List.range m).foldl (bpOuter l po opg) (bg, wg, ipg) with hrm
    have hstep : (List.range (m + 1)).foldl (bpOuter l po opg) (bg, wg, ipg) =
        bpOuter l po opg rm m := by
      rw [List.range_succ, List.foldl_append]
      rfl
    have hmwg : m < wg.length := by omega
    have hrowm : rm.2.1.getD m [] = wg.getD m [] := Wge m (le_refl m)
    have hrowmlen : (rm.2.1.getD m []).length = l.input_size := by
      rw [hrowm]
      exact hrows _ (getD_mem wg m [] hmwg)
    obtain ⟨P1, P2, Pne, Plen, Plt, Pge, Qlt, Qge⟩ :=
      bpInner_foldl l m (l.bias_partial_derivative po opg m) l.input_size rm.2.1 rm.2.2
        (by rw [W1]; exact hmwg) (by rw [hrowmlen]) (by rw [I1]; exact hipg)
    have hmbg : m < rm.1.length := by rw [B1]; omega
    rw [hstep]
    unfold bpOuter
    refine ⟨?_, ?_, ?_, ?_, ?_, ?_, ?_, ?_, ?_, ?_⟩
    · simpa using B1
    · simpa using P1.trans W1
    · intro j
      rcases Nat.decEq j m with h | h
      · rw [Pne j h]
        exact W3 j
      · rw [h, Plen, hrowm]
    · simpa using P2.trans I1
    · intro o ho
      rcases Nat.lt_or_ge o m with h | h
      · rw [getD_set_ne _ _ _ (by omega : m ≠ o)]
        exact Blt o h
      · have hom : o = m := by omega
        rw [hom, getD_set_self _ _ _ _ hmbg, Bge m (le_refl m)]
    · intro o ho
      rw [getD_set_ne _ _ _ (by omega : m ≠ o)]
      exact Bge o (by omega)
    · intro o ho i hi
      rcases Nat.lt_or_ge o m with h | h
      · rw [Pne o (by omega : o ≠ m)]
        exact Wlt o h i hi
      · have hom : o = m := by omega
        rw [hom, Plt i hi, hrowm]
    · intro o ho
      rw [Pne o (by omega : o ≠ m)]
      exact Wge o (by omega)
    · intro i hi
      rw [Qlt i hi, Ilt i hi, List.range_succ, List.map_append, List.sum_append]
      simp [add_assoc]
    · intro i hi
      rw [Qge i hi]
      exact Ige i hi

/-! ### Layer well-formedness basics -/

theorem LayerWF.input_size_eq {l : Layer} {isz osz : ℕ} (h : LayerWF l isz osz) :
    l.input_size = isz := by
  obtain ⟨hw, hrows, -, -, -, -, -, -, hosz, -⟩ := h
  unfold Layer.input_size
  cases hweq : l.weights with
  | nil => rw [hweq] at hw; simp at hw; omega
  | cons w rest =>
    simp only [hweq, List.headD_cons]
    exact hrows w (by rw [hweq]; simp)

theorem LayerWF.output_size_eq {l : Layer} {isz osz : ℕ} (h : LayerWF l isz osz) :
    l.output_size = osz := h.1

theorem backpropagation_step_spec (l : Layer) (isz osz : ℕ) (h : LayerWF l isz osz)
    (po opg : List ℚ) :
    ((l.backpropagation_step po opg).1.weights = l.weights ∧
     (l.backpropagation_step po opg).1.biases = l.biases ∧
     (l.backpropagation_step po opg).1.activation_fn = l.activation_fn ∧
     (l.backpropagation_step po opg).1.previous_inputs = l.previous_inputs ∧
     (l.backpropagation_step po opg).1.previous_weighted_sums = l.previous_weighted_sums) ∧
    ((l.backpropagation_step po opg).1.bias_gradient.length = osz ∧
     (∀ o, o < osz → (l.backpropagation_step po opg).1.bias_gradient.getD o 0 =
       l.bias_gradient.getD o 0 + l.bias_partial_derivative po opg o)) ∧
    ((l.backpropagation_step po opg).1.weight_gradient.length = osz ∧
     (∀ j, ((l.backpropagation_step po opg).1.weight_gradient.getD j []).length =
       (l.weight_gradient.getD j []).length) ∧
     (∀ o, o < osz → ∀ i, i < isz →
       ((l.backpropagation_step po opg).1.weight_gradient.getD o []).getD i 0 =
         (l.weight_gradient.getD o []).getD i 0 +
           l.previous_inputs.getD i 0 * l.bias_partial_derivative po opg o)) ∧
    ((l.backpropagation_step po opg).2.length = isz ∧
     (∀ i, i < isz → (l.backpropagation_step po opg).2.getD i 0 =
       ((List.range osz).map (fun o =>
         (l.weights.getD o []).getD i 0 * l.bias_partial_derivative po opg o)).sum)) := by
  have hin := h.input_size_eq
  have hout := h.output_size_eq
  obtain ⟨hw, hrows, hwg, hwgrows, hb, hbg, hpi, hpw, hosz, hisz⟩ := h
  obtain ⟨B1, W1, W3, I1, Blt, Bge, Wlt, Wge, Ilt, Ige⟩ :=
    bpOuter_foldl l po opg l.output_size l.bias_gradient l.weight_gradient
      (List.replicate l.input_size 0)
      (by rw [hout, hbg]) (by rw [hout, hwg])
      (fun r hr => by rw [hwgrows r hr, hin])
      (by simp)
  unfold Layer.backpropagation_step
  set st := (List.range l.output_size).foldl
    (bpOuter l po opg)
    (l.bias_gradient, l.weight_gradient, List.replicate l.input_size 0) with hst
  refine ⟨⟨rfl, rfl, rfl, rfl, rfl⟩, ⟨?_, ?_⟩, ⟨?_, ?_, ?_⟩, ?_, ?_⟩
  · rw [B1, hbg]
  · intro o ho
    exact Blt o (by omega)
  · rw [W1, hwg]
  · exact W3
  · intro o ho i hi
    rw [Wlt o (by omega) i (by omega)]
  · rw [I1, List.length_replicate, hin]
  · intro i hi
    rw [Ilt i (by omega), getD_replicate _ _ _ _ (by omega), zero_add, hout]

theorem Layer.ext7 {a b : Layer} (h1 : a.weights = b.weights)
    (h2 : a.weight_gradient = b.weight_gradient) (h3 : a.biases = b.biases)
    (h4 : a.bias_gradient = b.bias_gradient) (h5 : a.activation_fn = b.activation_fn)
    (h6 : a.previous_inputs = b.previous_inputs)
    (h7 : a.previous_weighted_sums = b.previous_weighted_sums) : a = b := by
  cases a
  cases b
  simp_all

theorem Network.ext1 {a b : Network} (h : a.layers = b.layers) : a = b := by
  cases a
  cases b
  simp_all

theorem backpropagation_step_WF (l : Layer) (isz osz : ℕ) (h : LayerWF l isz osz)
    (po opg : List ℚ) : LayerWF (l.backpropagation_step po opg).1 isz osz := by
  obtain ⟨⟨e1, e2, e3, e4, e5⟩, ⟨b1, b2⟩, ⟨w1, w2, w3⟩, i1, i2⟩ :=
    backpropagation_step_spec l isz osz h po opg
  obtain ⟨hw, hrows, hwg, hwgrows, hbs, hbg, hpi, hpw, hosz, hisz⟩ := h
  refine ⟨by rw [e1, hw], by rw [e1]; exact hrows, w1, ?_, by rw [e2, hbs], b1,
    by rw [e4, hpi], by rw [e5, hpw], hosz, hisz⟩
  refine forall_mem_of_getD _ [] _ (fun j hj => ?_)
  rw [w2 j]
  exact hwgrows _ (getD_mem _ _ _ (by rw [w1] at hj; omega))

theorem addGrads_WF (l : Layer) (isz osz : ℕ) (h : LayerWF l isz osz)
    (bgd : List ℚ) (wgd : List (List ℚ)) (hb : bgd.length = osz) (hwl : wgd.length = osz)
    (hwr : ∀ r ∈ wgd, r.length = isz) : LayerWF (l.addGrads bgd wgd) isz osz := by
  obtain ⟨hw, hrows, hwg, hwgrows, hbs, hbg, hpi, hpw, hosz, hisz⟩ := h
  refine ⟨hw, hrows, ?_, ?_, hbs, ?_, hpi, hpw, hosz, hisz⟩
  · simp [Layer.addGrads, hwg, hwl]
  · refine forall_mem_of_getD _ [] _ (fun j hj => ?_)
    have hjlen : j < osz := by
      simpa [Layer.addGrads, hwg, hwl] using hj
    show ((List.zipWith (fun r s => List.zipWith (fun a b => a + b) r s)
      l.weight_gradient wgd).getD j []).length = isz
    rw [getD_zipWith _ _ _ j [] [] [] (by omega) (by omega), List.length_zipWith,
      hwgrows _ (getD_mem _ _ _ (by omega)), hwr _ (getD_mem _ _ _ (by omega)),
      Nat.min_self]
  · simp [Layer.addGrads, hbg, hb]

theorem backpropagation_step_addGrads (l : Layer) (isz osz : ℕ) (h : LayerWF l isz osz)
    (bgd : List ℚ) (wgd : List (List ℚ)) (hb : bgd.length = osz) (hwl : wgd.length = osz)
    (hwr : ∀ r ∈ wgd, r.length = isz) (po opg : List ℚ) :
    (l.addGrads bgd wgd).backpropagation_step po opg =
      ((l.backpropagation_step po opg).1.addGrads bgd wgd,
       (l.backpropagation_step po opg).2) := by
  have h2 := addGrads_WF l isz osz h bgd wgd hb hwl hwr
  obtain ⟨⟨e1, e2, e3, e4, e5⟩, ⟨b1, b2⟩, ⟨w1, w2, w3⟩, i1, i2⟩ :=
    backpropagation_step_spec l isz osz h po opg
  obtain ⟨⟨f1, f2, f3, f4, f5⟩, ⟨c1, c2⟩, ⟨v1, v2, v3⟩, j1, j2⟩ :=
    backpropagation_step_spec (l.addGrads bgd wgd) isz osz h2 po opg
  obtain ⟨hw, hrows, hwg, hwgrows, hbs, hbg, hpi, hpw, hosz, hisz⟩ := h
  have hbpd : ∀ o, (l.addGrads bgd wgd).bias_partial_derivative po opg o =
      l.bias_partial_derivative po opg o := fun o => rfl
  have haRow : ∀ j, j < osz → (l.addGrads bgd wgd).weight_gradient.getD j [] =
      List.zipWith (fun a b => a + b) (l.weight_gradient.getD j []) (wgd.getD j []) := by
    intro j hj
    show (List.zipWith (fun r s => List.zipWith (fun a b => a + b) r s)
      l.weight_gradient wgd).getD j [] = _
    rw [getD_zipWith _ _ _ j [] [] [] (by omega) (by omega)]
  have haRowLen : ∀ j, j < osz → ((l.addGrads bgd wgd).weight_gradient.getD j []).length
      = isz := by
    intro j hj
    rw [haRow j hj, List.length_zipWith, hwgrows _ (getD_mem _ _ _ (by omega)),
      hwr _ (getD_mem _ _ _ (by omega)), Nat.min_self]
  have hrowlen : ∀ j, j < osz →
      ((l.backpropagation_step po opg).1.weight_gradient.getD j []).length = isz := by
    intro j hj
    rw [w2 j]
    exact hwgrows _ (getD_mem _ _ _ (by omega))
  refine Prod.ext ?_ ?_
  · refine Layer.ext7 ?_ ?_ ?_ ?_ ?_ ?_ ?_
    · exact f1.trans e1.symm
    · show ((l.addGrads bgd wgd).backpropagation_step po opg).1.weight_gradient =
        List.zipWith (fun r s => List.zipWith (fun a b => a + b) r s)
          (l.backpropagation_step po opg).1.weight_gradient wgd
      refine list_eq_of_getD [] _ _ ?_ ?_
      · rw [v1, List.length_zipWith, w1, hwl, Nat.min_self]
      · intro j hj
        have hjosz : j < osz := by rw [v1] at hj; omega
        rw [getD_zipWith _ _ _ j [] [] [] (by rw [w1]; omega) (by omega)]
        refine list_eq_of_getD 0 _ _ ?_ ?_
        · rw [v2 j, haRowLen j hjosz, List.length_zipWith, hrowlen j hjosz,
            hwr _ (getD_mem _ _ _ (by omega)), Nat.min_self]
        · intro i hi
          have hiisz : i < isz := by
            rw [v2 j, haRowLen j hjosz] at hi
            exact hi
          rw [v3 j hjosz i hiisz, hbpd, haRow j hjosz,
            getD_zipWith (fun a b => a + b) _ _ i 0 0 0
              (by rw [hwgrows _ (getD_mem _ _ _ (by omega))]; omega)
              (by rw [hwr _ (getD_mem _ _ _ (by omega))]; omega),
            getD_zipWith (fun a b => a + b) _ _ i 0 0 0
              (by rw [hrowlen j hjosz]; omega)
              (by rw [hwr _ (getD_mem _ _ _ (by omega))]; omega),
            w3 j hjosz i hiisz]
          have hpieq : (l.addGrads bgd wgd).previous_inputs = l.previous_inputs := rfl
          rw [hpieq]
          ring
    · exact f2.trans e2.symm
    · show ((l.addGrads bgd wgd).backpropagation_step po opg).1.bias_gradient =
        List.zipWith (fun a b => a + b) (l.backpropagation_step po opg).1.bias_gradient bgd
      refine list_eq_of_getD 0 _ _ ?_ ?_
      · rw [c1, List.length_zipWith, b1, hb, Nat.min_self]
      · intro o ho
        have hoosz : o < osz := by rw [c1] at ho; omega
        rw [c2 o hoosz, hbpd,
          getD_zipWith (fun a b => a + b) _ _ o 0 0 0 (by rw [b1]; omega) (by omega)]
        have habgD : (l.addGrads bgd wgd).bias_gradient.getD o 0 =
            l.bias_gradient.getD o 0 + bgd.getD o 0 := by
          show (List.zipWith (fun a b => a + b) l.bias_gradient bgd).getD o 0 = _
          rw [getD_zipWith (fun a b => a + b) _ _ o 0 0 0 (by omega) (by omega)]
        rw [habgD, b2 o hoosz]
        ring
    · exact f3.trans e3.symm
    · exact f4.trans e4.symm
    · exact f5.trans e5.symm
  · refine list_eq_of_getD 0 _ _ (by rw [j1, i1]) ?_
    intro i hi
    have hiisz : i < isz := by rw [j1] at hi; omega
    rw [j2 i hiisz, i2 i hiisz]
    rfl

/-! ### Forward-pass lemmas -/

theorem Layer.forward_spec (l : Layer) (isz osz : ℕ) (h : LayerWF l isz osz) (x : List ℚ)
    (hx : x.length = isz) :
    l.forward x = .ok
      ({ l with
          previous_weighted_sums :=
            List.zipWith (fun row b => dotProduct row x + b) l.weights l.biases,
          previous_inputs := x },
       (List.zipWith (fun row b => dotProduct row x + b) l.weights l.biases).map
         l.activation_fn.apply) := by
  have hin := h.input_size_eq
  unfold Layer.forward Layer.check_input_size
  have hc : ¬(l.input_size ≠ x.length) := by omega
  simp only [hc, ite_false, if_neg, not_false_iff]

theorem Layer.forward_spec_out_length (l : Layer) (isz osz : ℕ) (h : LayerWF l isz osz)
    (x : List ℚ) :
    ((List.zipWith (fun row b => dotProduct row x + b) l.weights l.biases).map
      l.activation_fn.apply).length = osz := by
  obtain ⟨hw, -, -, -, hbs, -, -, -, -, -⟩ := h
  rw [List.length_map, List.length_zipWith, hw, hbs, Nat.min_self]

theorem Layer.forward_spec_WF (l : Layer) (isz osz : ℕ) (h : LayerWF l isz osz)
    (x : List ℚ) (hx : x.length = isz) :
    LayerWF { l with
        previous_weighted_sums :=
          List.zipWith (fun row b => dotProduct row x + b) l.weights l.biases,
        previous_inputs := x } isz osz := by
  obtain ⟨hw, hrows, hwg, hwgrows, hbs, hbg, hpi, hpw, hosz, hisz⟩ := h
  exact ⟨hw, hrows, hwg, hwgrows, hbs, hbg, hx,
    by rw [List.length_zipWith, hw, hbs, Nat.min_self], hosz, hisz⟩

theorem Layer.forward_mismatch (l : Layer) (x : List ℚ) (hx : x.length ≠ l.input_size) :
    l.forward x = .error (.InputSizeMismatch l.input_size x.length) := by
  unfold Layer.forward Layer.check_input_size
  have hc : l.input_size ≠ x.length := fun h => hx h.symm
  rw [if_pos hc]

theorem Layer.forward_ok_inv (l : Layer) (x : List ℚ) (l2 : Layer) (out : List ℚ)
    (h : l.forward x = .ok (l2, out)) :
    x.length = l.input_size ∧
    l2 = { l with
      previous_weighted_sums :=
        List.zipWith (fun row b => dotProduct row x + b) l.weights l.biases,
      previous_inputs := x } ∧
    out = (List.zipWith (fun row b => dotProduct row x + b) l.weights l.biases).map
      l.activation_fn.apply := by
  unfold Layer.forward Layer.check_input_size at h
  by_cases hc : l.input_size ≠ x.length
  · rw [if_pos hc] at h
    exact absurd h (by simp)
  · rw [if_neg hc] at h
    simp only [Except.ok.injEq, Prod.mk.injEq] at h
    exact ⟨by omega, h.1.symm, h.2.symm⟩

theorem Layer.forward_err_inv (l : Layer) (x : List ℚ) (e : LayerError)
    (h : l.forward x = .error e) :
    x.length ≠ l.input_size ∧ e = .InputSizeMismatch l.input_size x.length := by
  unfold Layer.forward Layer.check_input_size at h
  by_cases hc : l.input_size ≠ x.length
  · rw [if_pos hc] at h
    simp only [Except.error.injEq] at h
    exact ⟨fun hh => hc hh.symm, h.symm⟩
  · rw [if_neg hc] at h
    exact absurd h (by simp)

theorem forward_addGrads_ok (l l2 : Layer) (x out : List ℚ) (bgd : List ℚ)
    (wgd : List (List ℚ)) (hok : l.forward x = .ok (l2, out)) :
    (l.addGrads bgd wgd).forward x = .ok (l2.addGrads bgd wgd, out) := by
  obtain ⟨hx, hl2, hout⟩ := Layer.forward_ok_inv l x l2 out hok
  have hieq : (l.addGrads bgd wgd).input_size = l.input_size := rfl
  unfold Layer.forward Layer.check_input_size
  rw [hieq, if_neg (by omega : ¬(l.input_size ≠ x.length))]
  rw [hl2, hout]
  rfl

theorem forward_addGrads_err (l : Layer) (x : List ℚ) (e : LayerError) (bgd : List ℚ)
    (wgd : List (List ℚ)) (herr : l.forward x = .error e) :
    (l.addGrads bgd wgd).forward x = .error e := by
  obtain ⟨hx, he⟩ := Layer.forward_err_inv l x e herr
  have hieq : (l.addGrads bgd wgd).input_size = l.input_size := rfl
  unfold Layer.forward Layer.check_input_size
  rw [hieq, if_pos (by omega : (l.input_size ≠ x.length)), he]

theorem forward_core_eq {a b : Layer} (hc : core_eq a b) (x : List ℚ) :
    a.forward x = b.forward x := by
  obtain ⟨cw, cb, ca, cwg, cbg⟩ := hc
  have hin : a.input_size = b.input_size := by
    unfold Layer.input_size
    rw [cw]
  unfold Layer.forward Layer.check_input_size
  rw [hin, cw, cb, ca, cwg, cbg]

theorem forward_layers_cons_ok (l : Layer) (ls : List Layer) (x : List ℚ)
    (l2 : Layer) (out : List ℚ) (h : l.forward x = .ok (l2, out)) :
    forward_layers (l :: ls) x =
      (l2 :: (forward_layers ls out).1, (forward_layers ls out).2) := by
  simp only [forward_layers, h]

theorem forward_layers_cons_err (l : Layer) (ls : List Layer) (x : List ℚ)
    (e : LayerError) (h : l.forward x = .error e) :
    forward_layers (l :: ls) x = (l :: ls, .error e) := by
  simp only [forward_layers, h]

theorem forward_layers_match : ∀ (ls : List Layer) (sizes : List ℕ),
    layers_match ls sizes → ∀ x : List ℚ, x.length = sizes.headD 0 →
    ∃ ls2 out, forward_layers ls x = (ls2, .ok out) ∧ layers_match ls2 sizes ∧
      out.length = sizes.getLastD 0 ∧ List.Forall₂ core_eq ls ls2
  | [], sizes, h, x, hx => by
    have hs : sizes.length = 1 := h
    obtain ⟨s, rfl⟩ : ∃ s, sizes = [s] := by
      cases sizes with
      | nil => simp at hs
      | cons a t =>
        cases t with
        | nil => exact ⟨a, rfl⟩
        | cons b t2 => simp at hs
    exact ⟨[], x, rfl, h, by simpa using hx, List.Forall₂.nil⟩
  | l :: ls, [], h, x, hx => absurd h (by simp [layers_match])
  | l :: ls, [s], h, x, hx => absurd h (by simp [layers_match])
  | l :: ls, i :: o :: rest, h, x, hx => by
    obtain ⟨hWF, hmatch⟩ := h
    have hxi : x.length = i := by simpa using hx
    have hfwd := Layer.forward_spec l i o hWF x hxi
    have houtlen := Layer.forward_spec_out_length l i o hWF x
    have hWF2 := Layer.forward_spec_WF l i o hWF x hxi
    obtain ⟨ls2, out, heq, hmatch2, hlen, hfa⟩ :=
      forward_layers_match ls (o :: rest) hmatch
        ((List.zipWith (fun row b => dotProduct row x + b) l.weights l.biases).map
          l.activation_fn.apply) (by rw [houtlen]; rfl)
    refine ⟨_ :: ls2, out, ?_, ⟨hWF2, hmatch2⟩, ?_, ?_⟩
    · rw [forward_layers_cons_ok l ls x _ _ hfwd, heq]
    · rw [hlen]
      simp [List.getLastD_cons]
    · exact List.Forall₂.cons ⟨rfl, rfl, rfl, rfl, rfl⟩ hfa

theorem forward_layers_WF : ∀ (ls : List Layer) (sizes : List ℕ),
    layers_match ls sizes → ∀ x : List ℚ,
    layers_match (forward_layers ls x).1 sizes
  | [], sizes, h, x => h
  | l :: ls, [], h, x => absurd h (by simp [layers_match])
  | l :: ls, [s], h, x => absurd h (by simp [layers_match])
  | l :: ls, i :: o :: rest, h, x => by
    obtain ⟨hWF, hmatch⟩ := h
    rcases hfw : l.forward x with e | ⟨l2, out⟩
    · rw [forward_layers_cons_err l ls x e hfw]
      exact ⟨hWF, hmatch⟩
    · obtain ⟨hx, hl2, hout⟩ := Layer.forward_ok_inv l x l2 out hfw
      rw [forward_layers_cons_ok l ls x l2 out hfw]
      refine ⟨?_, forward_layers_WF ls (o :: rest) hmatch out⟩
      rw [hl2]
      exact Layer.forward_spec_WF l i o hWF x (by rw [hx, hWF.input_size_eq])

/-! ### Backward-pass lemmas -/

theorem backpropagation_step_frame (l : Layer) (po opg : List ℚ) :
    (l.backpropagation_step po opg).1.weights = l.weights ∧
    (l.backpropagation_step po opg).1.biases = l.biases ∧
    (l.backpropagation_step po opg).1.activation_fn = l.activation_fn ∧
    (l.backpropagation_step po opg).1.previous_inputs = l.previous_inputs ∧
    (l.backpropagation_step po opg).1.previous_weighted_sums = l.previous_weighted_sums :=
  ⟨rfl, rfl, rfl, rfl, rfl⟩

theorem backward_pass_length (outputs : List ℚ) :
    ∀ (ls : List Layer) (g : List ℚ), (backward_pass outputs ls g).1.length = ls.length
  | [], g => rfl
  | l :: ls, g => by
    have ih := backward_pass_length outputs ls g
    rcases hbp : backward_pass outputs ls g with ⟨ls1, g1⟩
    rw [hbp] at ih
    cases ls1 with
    | nil =>
      have h0 : ls.length = 0 := by simpa using ih.symm
      simp only [backward_pass, hbp]
      simp
      exact List.length_eq_zero.mp h0
    | cons l2 t =>
      have h0 : ls.length = t.length + 1 := by simpa using ih.symm
      simp only [backward_pass, hbp]
      simp
      omega

theorem backward_pass_frame (outputs : List ℚ) :
    ∀ (ls : List Layer) (g : List ℚ),
      List.Forall₂ frame_eq ls (backward_pass outputs ls g).1
  | [], g => List.Forall₂.nil
  | l :: ls, g => by
    have ih := backward_pass_frame outputs ls g
    rcases hbp : backward_pass outputs ls g with ⟨ls1, g1⟩
    rw [hbp] at ih
    cases ls1 with
    | nil =>
      simp only [backward_pass, hbp]
      exact List.Forall₂.cons ⟨rfl, rfl, rfl, rfl, rfl⟩ ih
    | cons l2 t =>
      simp only [backward_pass, hbp]
      exact List.Forall₂.cons ⟨rfl, rfl, rfl, rfl, rfl⟩ ih

theorem backward_pass_WF : ∀ (ls : List Layer) (sizes : List ℕ),
    layers_match ls sizes → ∀ (outputs g : List ℚ),
    layers_match (backward_pass outputs ls g).1 sizes
  | [], sizes, h, outputs, g => h
  | l :: ls, [], h, outputs, g => absurd h (by simp [layers_match])
  | l :: ls, [s], h, outputs, g => absurd h (by simp [layers_match])
  | l :: ls, i :: o :: rest, h, outputs, g => by
    obtain ⟨hWF, hmatch⟩ := h
    have ih := backward_pass_WF ls (o :: rest) hmatch outputs g
    rcases hbp : backward_pass outputs ls g with ⟨ls1, g1⟩
    rw [hbp] at ih
    cases ls1 with
    | nil =>
      simp only [backward_pass, hbp]
      exact ⟨backpropagation_step_WF l i o hWF outputs g1, ih⟩
    | cons l2 t =>
      simp only [backward_pass, hbp]
      exact ⟨backpropagation_step_WF l i o hWF l2.get_previous_input g1, ih⟩

theorem backward_pass_cons_nil (outputs : List ℚ) (l : Layer) (ls : List Layer)
    (g g1 : List ℚ) (h : backward_pass outputs ls g = ([], g1)) :
    backward_pass outputs (l :: ls) g =
      ([(l.backpropagation_step outputs g1).1], (l.backpropagation_step outputs g1).2) := by
  simp only [backward_pass, h]

theorem backward_pass_cons_cons (outputs : List ℚ) (l : Layer) (ls : List Layer)
    (g g1 : List ℚ) (l2 : Layer) (t : List Layer)
    (h : backward_pass outputs ls g = (l2 :: t, g1)) :
    backward_pass outputs (l :: ls) g =
      ((l.backpropagation_step l2.get_previous_input g1).1 :: l2 :: t,
       (l.backpropagation_step l2.get_previous_input g1).2) := by
  simp only [backward_pass, h]

theorem backward_pass_addGrads :
    ∀ (ls : List Layer) (sizes : List ℕ), layers_match ls sizes →
    ∀ (incr : List (List ℚ × List (List ℚ))), grads_match incr sizes →
    ∀ (outputs g : List ℚ),
    backward_pass outputs (List.zipWith (fun l p => l.addGrads p.1 p.2) ls incr) g =
      (List.zipWith (fun l p => l.addGrads p.1 p.2) (backward_pass outputs ls g).1 incr,
       (backward_pass outputs ls g).2)
  | [], sizes, h, incr, hg, outputs, g => rfl
  | l :: ls, [], h, incr, hg, outputs, g => absurd h (by simp [layers_match])
  | l :: ls, [s], h, incr, hg, outputs, g => absurd h (by simp [layers_match])
  | l :: ls, i :: o :: rest, h, incr, hg, outputs, g => by
    obtain ⟨hWF, hmatch⟩ := h
    cases incr with
    | nil => exact absurd hg (by simp [grads_match])
    | cons p pt =>
      obtain ⟨hp1, hp2, hp3, hgt⟩ := hg
      have ih := backward_pass_addGrads ls (o :: rest) hmatch pt hgt outputs g
      rcases hbp : backward_pass outputs ls g with ⟨ls1, g1⟩
      rw [hbp] at ih
      have hlen := backward_pass_length outputs ls g
      rw [hbp] at hlen
      cases ls1 with
      | nil =>
        have hls : ls = [] := List.length_eq_zero.mp (by simpa using hlen.symm)
        subst hls
        have hg1 : g1 = g := by
          have h2 : (([], g) : List Layer × List ℚ) = ([], g1) := hbp
          simpa using h2.symm
        subst hg1
        have hz : List.zipWith (fun l p => l.addGrads p.1 p.2) ([] : List Layer) pt = [] :=
          List.zipWith_nil_left
        have hbpz : backward_pass outputs
            (List.zipWith (fun l p => l.addGrads p.1 p.2) ([] : List Layer) pt) g1 =
            ([], g1) := by
          rw [hz]
          rfl
        rw [List.zipWith_cons_cons,
          backward_pass_cons_nil outputs _ _ g1 g1 hbpz,
          backward_pass_cons_nil outputs l [] g1 g1 rfl,
          backpropagation_step_addGrads l i o hWF p.1 p.2 hp1 hp2 hp3 outputs g1]
        simp [List.zipWith_cons_cons]
      | cons l2 t =>
        cases ls with
        | nil => simp at hlen
        | cons a b =>
          cases rest with
          | nil => exact absurd hmatch (by simp [layers_match])
          | cons r rt =>
            cases pt with
            | nil => exact absurd hgt (by simp [grads_match])
            | cons q qt =>
              have hbp2 : backward_pass outputs
                  (List.zipWith (fun l p => l.addGrads p.1 p.2) (a :: b) (q :: qt)) g =
                  ((l2.addGrads q.1 q.2) ::
                    List.zipWith (fun l p => l.addGrads p.1 p.2) t qt, g1) := by
                rw [ih]
                simp [List.zipWith_cons_cons]
              have hprev : (l2.addGrads q.1 q.2).get_previous_input =
                  l2.get_previous_input := rfl
              rw [List.zipWith_cons_cons,
                backward_pass_cons_cons outputs _ _ g g1 _ _ hbp2,
                backward_pass_cons_cons outputs l (a :: b) g g1 l2 t hbp,
                hprev,
                backpropagation_step_addGrads l i o hWF p.1 p.2 hp1 hp2 hp3
                  l2.get_previous_input g1]
              simp [List.zipWith_cons_cons]

/-! ### Frame relations and network-level forward lemmas -/

theorem wba_of_core {a b : Layer} (h : core_eq a b) :
    a.weights = b.weights ∧ a.biases = b.biases ∧ a.activation_fn = b.activation_fn :=
  ⟨h.1, h.2.1, h.2.2.1⟩

theorem wba_of_frame {a b : Layer} (h : frame_eq a b) :
    a.weights = b.weights ∧ a.biases = b.biases ∧ a.activation_fn = b.activation_fn :=
  ⟨h.1, h.2.1, h.2.2.1⟩

theorem forall₂_wba_trans :
    ∀ {a b c : List Layer},
    List.Forall₂ (fun x y => x.weights = y.weights ∧ x.biases = y.biases ∧
      x.activation_fn = y.activation_fn) a b →
    List.Forall₂ (fun x y => x.weights = y.weights ∧ x.biases = y.biases ∧
      x.activation_fn = y.activation_fn) b c →
    List.Forall₂ (fun x y => x.weights = y.weights ∧ x.biases = y.biases ∧
      x.activation_fn = y.activation_fn) a c
  | [], [], [], _, _ => List.Forall₂.nil
  | _ :: _, _ :: _, _ :: _, List.Forall₂.cons h1 t1, List.Forall₂.cons h2 t2 =>
    List.Forall₂.cons ⟨h1.1.trans h2.1, h1.2.1.trans h2.2.1, h1.2.2.trans h2.2.2⟩
      (forall₂_wba_trans t1 t2)

theorem forward_layers_core :
    ∀ (ls : List Layer) (x : List ℚ) (ls2 : List Layer) (out : List ℚ),
    forward_layers ls x = (ls2, .ok out) → List.Forall₂ core_eq ls ls2
  | [], x, ls2, out, h => by
    have h1 : ls2 = [] := by
      have h2 := congrArg Prod.fst h
      simpa [forward_layers] using h2.symm
    rw [h1]
    exact List.Forall₂.nil
  | l :: ls, x, ls2, out, h => by
    rcases hfw : l.forward x with e | ⟨l2, out1⟩
    · rw [forward_layers_cons_err l ls x e hfw] at h
      have hc := congrArg Prod.snd h
      simp at hc
    · rw [forward_layers_cons_ok l ls x l2 out1 hfw] at h
      obtain ⟨hx, hl2, hout⟩ := Layer.forward_ok_inv l x l2 out1 hfw
      have h1 : l2 :: (forward_layers ls out1).1 = ls2 := congrArg Prod.fst h
      have h2 : (forward_layers ls out1).2 = Except.ok out := congrArg Prod.snd h
      rw [← h1]
      refine List.Forall₂.cons ?_
        (forward_layers_core ls out1 (forward_layers ls out1).1 out ?_)
      · rw [hl2]
        exact ⟨rfl, rfl, rfl, rfl, rfl⟩
      · rw [← h2]

theorem forward_layers_congr :
    ∀ (ls ms : List Layer), List.Forall₂ core_eq ls ms → ∀ (x : List ℚ),
    (forward_layers ls x).2 = (forward_layers ms x).2 ∧
    (∀ out, (forward_layers ls x).2 = .ok out →
      (forward_layers ls x).1 = (forward_layers ms x).1)
  | [], [], _, x => ⟨rfl, fun _ _ => rfl⟩
  | l :: ls, m :: ms, List.Forall₂.cons hc ht, x => by
    have hfeq : l.forward x = m.forward x := forward_core_eq hc x
    rcases hfw : l.forward x with e | ⟨l2, out1⟩
    · rw [forward_layers_cons_err l ls x e hfw,
        forward_layers_cons_err m ms x e (hfeq ▸ hfw)]
      exact ⟨rfl, fun out hout => by simp at hout⟩
    · have hfwm : m.forward x = .ok (l2, out1) := hfeq ▸ hfw
      rw [forward_layers_cons_ok l ls x l2 out1 hfw,
        forward_layers_cons_ok m ms x l2 out1 hfwm]
      obtain ⟨ih1, ih2⟩ := forward_layers_congr ls ms ht out1
      exact ⟨ih1, fun out hout => by rw [ih2 out hout, ih1]⟩

theorem forward_layers_addGrads :
    ∀ (ls : List Layer) (incr : List (List ℚ × List (List ℚ))) (x : List ℚ)
      (ls2 : List Layer) (out : List ℚ), incr.length = ls.length →
    forward_layers ls x = (ls2, .ok out) →
    forward_layers (List.zipWith (fun l p => l.addGrads p.1 p.2) ls incr) x =
      (List.zipWith (fun l p => l.addGrads p.1 p.2) ls2 incr, .ok out)
  | [], [], x, ls2, out, hlen, h => by
    have h2 : ls2 = [] := by
      have hc := congrArg Prod.fst h
      simpa [forward_layers] using hc.symm
    have h3 : out = x := by
      have hc := congrArg Prod.snd h
      simpa [forward_layers] using hc.symm
    subst h2
    subst h3
    rfl
  | [], p :: pt, x, ls2, out, hlen, h => by simp at hlen
  | l :: ls, [], x, ls2, out, hlen, h => by simp at hlen
  | l :: ls, p :: pt, x, ls2, out, hlen, h => by
    rcases hfw : l.forward x with e | ⟨l2, out1⟩
    · rw [forward_layers_cons_err l ls x e hfw] at h
      have hc := congrArg Prod.snd h
      simp at hc
    · rw [forward_layers_cons_ok l ls x l2 out1 hfw] at h
      have h1 : l2 :: (forward_layers ls out1).1 = ls2 := congrArg Prod.fst h
      have h2 : (forward_layers ls out1).2 = Except.ok out := congrArg Prod.snd h
      have ih := forward_layers_addGrads ls pt out1 (forward_layers ls out1).1 out
        (by simpa using hlen) (by rw [← h2])
      rw [List.zipWith_cons_cons,
        forward_layers_cons_ok _ _ x (l2.addGrads p.1 p.2) out1
          (forward_addGrads_ok l l2 x out1 p.1 p.2 hfw),
        ih]
      rw [← h1]
      simp [List.zipWith_cons_cons]

theorem Network.forward_eq (n : Network) (x : List ℚ) :
    n.forward x = ({ layers := (forward_layers n.layers x).1 },
      (forward_layers n.layers x).2.mapError NetworkError.LayerError) := rfl

theorem network_forward_ok_inv (n : Network) (x : List ℚ) (n1 : Network) (out : List ℚ)
    (h : n.forward x = (n1, .ok out)) :
    forward_layers n.layers x = (n1.layers, .ok out) := by
  rw [Network.forward_eq] at h
  have h1 : ({ layers := (forward_layers n.layers x).1 } : Network) = n1 := congrArg Prod.fst h
  have h2 := congrArg Prod.snd h
  have h3 : n1.layers = (forward_layers n.layers x).1 := by rw [← h1]
  rcases hr : (forward_layers n.layers x).2 with e | v
  · rw [hr] at h2
    simp [Except.mapError] at h2
  · rw [hr] at h2
    simp only [Except.mapError, Except.ok.injEq] at h2
    refine Prod.ext ?_ ?_
    · rw [h3]
    · rw [hr, h2]

theorem Network.forward_ok_of (n : Network) (x : List ℚ) (ls2 : List Layer) (out : List ℚ)
    (h : forward_layers n.layers x = (ls2, .ok out)) :
    n.forward x = ({ layers := ls2 }, .ok out) := by
  rw [Network.forward_eq, h]
  rfl

/-! ### Backpropagate: unfolding and preservation -/

theorem backpropagate_nil (n : Network) (loss : LossFnChecked) :
    n.backpropagate loss [] = (n, .ok ()) := rfl

theorem backpropagate_cons_ok (n : Network) (loss : LossFnChecked) (s : Sample)
    (rest : List Sample) (n1 : Network) (outputs g : List ℚ)
    (hfw : n.forward s.inputs = (n1, .ok outputs))
    (hg : LossFn.partial_gradient loss outputs s.expected_outputs = .ok g) :
    n.backpropagate loss (s :: rest) =
      Network.backpropagate { layers := (backward_pass outputs n1.layers g).1 } loss rest := by
  simp only [Network.backpropagate, hfw, hg]

theorem backpropagate_cons_fwd_err (n : Network) (loss : LossFnChecked) (s : Sample)
    (rest : List Sample) (n1 : Network) (e : NetworkError)
    (hfw : n.forward s.inputs = (n1, .error e)) :
    n.backpropagate loss (s :: rest) = (n1, .error e) := by
  simp only [Network.backpropagate, hfw]

theorem backpropagate_cons_loss_err (n : Network) (loss : LossFnChecked) (s : Sample)
    (rest : List Sample) (n1 : Network) (outputs : List ℚ) (e : LossFnError)
    (hfw : n.forward s.inputs = (n1, .ok outputs))
    (hg : LossFn.partial_gradient loss outputs s.expected_outputs = .error e) :
    n.backpropagate loss (s :: rest) = (n1, .error (.LossFnError e)) := by
  simp only [Network.backpropagate, hfw, hg]

theorem layers_match_length : ∀ (ls : List Layer) (sizes : List ℕ),
    layers_match ls sizes → ls.length + 1 = sizes.length
  | [], sizes, h => by
    have h1 : sizes.length = 1 := h
    simpa using h1.symm
  | l :: ls, [], h => absurd h (by simp [layers_match])
  | l :: ls, [s], h => absurd h (by simp [layers_match])
  | l :: ls, i :: o :: rest, h => by
    have ih := layers_match_length ls (o :: rest) h.2
    simp only [List.length_cons] at ih ⊢
    omega

theorem grads_match_length : ∀ (incr : List (List ℚ × List (List ℚ))) (sizes : List ℕ),
    grads_match incr sizes → incr.length + 1 = sizes.length
  | [], sizes, h => by
    have h1 : sizes.length = 1 := h
    simpa using h1.symm
  | p :: pt, [], h => absurd h (by simp [grads_match])
  | p :: pt, [s], h => absurd h (by simp [grads_match])
  | p :: pt, i :: o :: rest, h => by
    have ih := grads_match_length pt (o :: rest) h.2.2.2
    simp only [List.length_cons] at ih ⊢
    omega

theorem forall₂_wba_refl (ls : List Layer) :
    List.Forall₂ (fun x y => x.weights = y.weights ∧ x.biases = y.biases ∧
      x.activation_fn = y.activation_fn) ls ls := by
  induction ls with
  | nil => exact List.Forall₂.nil
  | cons l t ih => exact List.Forall₂.cons ⟨rfl, rfl, rfl⟩ ih

theorem backpropagate_WF : ∀ (d : List Sample) (n : Network) (sizes : List ℕ),
    layers_match n.layers sizes → ∀ (loss : LossFnChecked),
    layers_match ((n.backpropagate loss d).1).layers sizes
  | [], n, sizes, h, loss => h
  | s :: rest, n, sizes, h, loss => by
    rcases hr : (forward_layers n.layers s.inputs).2 with e | outputs
    · have hfw : n.forward s.inputs =
          ({ layers := (forward_layers n.layers s.inputs).1 }, .error (.LayerError e)) := by
        rw [Network.forward_eq, hr]
        rfl
      rw [backpropagate_cons_fwd_err n loss s rest _ _ hfw]
      exact forward_layers_WF n.layers sizes h s.inputs
    · have hfl : forward_layers n.layers s.inputs =
          ((forward_layers n.layers s.inputs).1, .ok outputs) := Prod.ext rfl hr
      have hfw := Network.forward_ok_of n s.inputs _ outputs hfl
      have hWF2 : layers_match (forward_layers n.layers s.inputs).1 sizes :=
        forward_layers_WF n.layers sizes h s.inputs
      rcases hg : LossFn.partial_gradient loss outputs s.expected_outputs with e | g
      · rw [backpropagate_cons_loss_err n loss s rest _ outputs e hfw hg]
        exact hWF2
      · rw [backpropagate_cons_ok n loss s rest _ outputs g hfw hg]
        exact backpropagate_WF rest _ sizes
          (backward_pass_WF _ sizes hWF2 outputs g) loss

theorem backpropagate_frame : ∀ (d : List Sample) (n : Network) (loss : LossFnChecked)
    (n2 : Network), n.backpropagate loss d = (n2, .ok ()) →
    List.Forall₂ (fun x y => x.weights = y.weights ∧ x.biases = y.biases ∧
      x.activation_fn = y.activation_fn) n.layers n2.layers
  | [], n, loss, n2, h => by
    have h1 : n = n2 := congrArg Prod.fst h
    rw [← h1]
    exact forall₂_wba_refl n.layers
  | s :: rest, n, loss, n2, h => by
    rcases hr : (forward_layers n.layers s.inputs).2 with e | outputs
    · have hfw : n.forward s.inputs =
          ({ layers := (forward_layers n.layers s.inputs).1 }, .error (.LayerError e)) := by
        rw [Network.forward_eq, hr]
        rfl
      rw [backpropagate_cons_fwd_err n loss s rest _ _ hfw] at h
      have hc := congrArg Prod.snd h
      simp at hc
    · have hfl : forward_layers n.layers s.inputs =
          ((forward_layers n.layers s.inputs).1, .ok outputs) := Prod.ext rfl hr
      have hfw := Network.forward_ok_of n s.inputs _ outputs hfl
      rcases hg : LossFn.partial_gradient loss outputs s.expected_outputs with e | g
      · rw [backpropagate_cons_loss_err n loss s rest _ outputs e hfw hg] at h
        have hc := congrArg Prod.snd h
        simp at hc
      · rw [backpropagate_cons_ok n loss s rest _ outputs g hfw hg] at h
        have hcore := forward_layers_core n.layers s.inputs _ outputs hfl
        have hframe := backward_pass_frame outputs (forward_layers n.layers s.inputs).1 g
        have ih := backpropagate_frame rest _ loss n2 h
        exact forall₂_wba_trans (hcore.imp (fun a b => wba_of_core))
          (forall₂_wba_trans (hframe.imp (fun a b => wba_of_frame)) ih)

theorem backpropagate_addGrads : ∀ (d : List Sample) (n : Network) (sizes : List ℕ),
    layers_match n.layers sizes →
    ∀ (incr : List (List ℚ × List (List ℚ))), grads_match incr sizes →
    ∀ (loss : LossFnChecked) (n2 : Network), n.backpropagate loss d = (n2, .ok ()) →
    (n.addGradsNet incr).backpropagate loss d = (n2.addGradsNet incr, .ok ())
  | [], n, sizes, h, incr, hg, loss, n2, hok => by
    have h1 : n = n2 := congrArg Prod.fst hok
    rw [← h1]
    rfl
  | s :: rest, n, sizes, h, incr, hgm, loss, n2, hok => by
    have hlen : incr.length = n.layers.length := by
      have h1 := layers_match_length n.layers sizes h
      have h2 := grads_match_length incr sizes hgm
      omega
    rcases hr : (forward_layers n.layers s.inputs).2 with e | outputs
    · have hfw : n.forward s.inputs =
          ({ layers := (forward_layers n.layers s.inputs).1 }, .error (.LayerError e)) := by
        rw [Network.forward_eq, hr]
        rfl
      rw [backpropagate_cons_fwd_err n loss s rest _ _ hfw] at hok
      have hc := congrArg Prod.snd hok
      simp at hc
    · have hfl : forward_layers n.layers s.inputs =
          ((forward_layers n.layers s.inputs).1, .ok outputs) := Prod.ext rfl hr
      have hfw := Network.forward_ok_of n s.inputs _ outputs hfl
      have hWF2 : layers_match (forward_layers n.layers s.inputs).1 sizes :=
        forward_layers_WF n.layers sizes h s.inputs
      rcases hg : LossFn.partial_gradient loss outputs s.expected_outputs with e | g
      · rw [backpropagate_cons_loss_err n loss s rest _ outputs e hfw hg] at hok
        have hc := congrArg Prod.snd hok
        simp at hc
      · rw [backpropagate_cons_ok n loss s rest _ outputs g hfw hg] at hok
        have hflA := forward_layers_addGrads n.layers incr s.inputs
          (forward_layers n.layers s.inputs).1 outputs hlen hfl
        have hfwA : (n.addGradsNet incr).forward s.inputs =
            ({ layers := List.zipWith (fun l p => l.addGrads p.1 p.2)
                (forward_layers n.layers s.inputs).1 incr }, .ok outputs) :=
          Network.forward_ok_of _ s.inputs _ outputs hflA
        have hbwA := backward_pass_addGrads (forward_layers n.layers s.inputs).1 sizes
          hWF2 incr hgm outputs g
        rw [backpropagate_cons_ok (n.addGradsNet incr) loss s rest _ outputs g hfwA hg]
        have hnext : ({ layers := (backward_pass outputs (List.zipWith
            (fun l p => l.addGrads p.1 p.2) (forward_layers n.layers s.inputs).1 incr) g).1 }
              : Network) =
            Network.addGradsNet { layers :=
              (backward_pass outputs (forward_layers n.layers s.inputs).1 g).1 } incr := by
          refine Network.ext1 ?_
          rw [hbwA]
          rfl
        rw [hnext]
        exact backpropagate_addGrads rest _ sizes
          (backward_pass_WF _ sizes hWF2 outputs g) incr hgm loss n2 hok

theorem backpropagate_core_eq (n m : Network)
    (hc : List.Forall₂ core_eq n.layers m.layers) (loss : LossFnChecked) (s : Sample)
    (rest : List Sample) (n2 : Network)
    (h : n.backpropagate loss (s :: rest) = (n2, .ok ())) :
    m.backpropagate loss (s :: rest) = (n2, .ok ()) := by
  rcases hr : (forward_layers n.layers s.inputs).2 with e | outputs
  · have hfw : n.forward s.inputs =
        ({ layers := (forward_layers n.layers s.inputs).1 }, .error (.LayerError e)) := by
      rw [Network.forward_eq, hr]
      rfl
    rw [backpropagate_cons_fwd_err n loss s rest _ _ hfw] at h
    have hcc := congrArg Prod.snd h
    simp at hcc
  · have hfl : forward_layers n.layers s.inputs =
        ((forward_layers n.layers s.inputs).1, .ok outputs) := Prod.ext rfl hr
    have hfw := Network.forward_ok_of n s.inputs _ outputs hfl
    obtain ⟨hcg1, hcg2⟩ := forward_layers_congr n.layers m.layers hc s.inputs
    have hrm : (forward_layers m.layers s.inputs).2 = .ok outputs := by
      rw [← hcg1, hr]
    have heq1 : (forward_layers n.layers s.inputs).1 = (forward_layers m.layers s.inputs).1 :=
      hcg2 outputs (by rw [hr])
    have hflm : forward_layers m.layers s.inputs =
        ((forward_layers n.layers s.inputs).1, .ok outputs) := by
      rw [heq1]
      exact Prod.ext rfl hrm
    have hfwm := Network.forward_ok_of m s.inputs _ outputs hflm
    rcases hg : LossFn.partial_gradient loss outputs s.expected_outputs with e | g
    · rw [backpropagate_cons_loss_err n loss s rest _ outputs e hfw hg] at h
      have hcc := congrArg Prod.snd h
      simp at hcc
    · rw [backpropagate_cons_ok n loss s rest _ outputs g hfw hg] at h
      rw [backpropagate_cons_ok m loss s rest _ outputs g hfwm hg]
      exact h

/-! ### Construction lemmas -/

theorem Layer.zeros_eq (i o : ℕ) (hi : 0 < i) (ho : 0 < o) (fn : ActivationFn) :
    Layer.zeros i o fn = .ok {
      weights := List.replicate o (List.replicate i 0)
      weight_gradient := List.replicate o (List.replicate i 0)
      biases := List.replicate o 0
      bias_gradient := List.replicate o 0
      activation_fn := fn
      previous_inputs := List.replicate i 0
      previous_weighted_sums := List.replicate o 0 } := by
  unfold Layer.zeros check_sizes
  rw [if_neg (by omega : ¬ i = 0), if_neg (by omega : ¬ o = 0)]

theorem Layer.zeros_ok (i o : ℕ) (hi : 0 < i) (ho : 0 < o) (fn : ActivationFn) :
    ∃ l, Layer.zeros i o fn = .ok l ∧ LayerWF l i o := by
  refine ⟨_, Layer.zeros_eq i o hi ho fn, ?_⟩
  refine ⟨by simp, ?_, by simp, ?_, by simp, by simp, by simp, by simp, ho, hi⟩
  · intro r hr
    rw [List.eq_of_mem_replicate hr]
    simp
  · intro r hr
    rw [List.eq_of_mem_replicate hr]
    simp

theorem Layer.random_ok (i o : ℕ) (hi : 0 < i) (ho : 0 < o) (fn : ActivationFn)
    (dist : ℕ → ℚ) : ∃ l, Layer.random i o fn dist = .ok l ∧ LayerWF l i o := by
  have heq : Layer.random i o fn dist = .ok {
      weights := (List.range o).map (fun oo =>
        (List.range i).map (fun ii =>
          (random_vec (o * i) dist).getD (ii * o + oo) 0))
      weight_gradient := List.replicate o (List.replicate i 0)
      biases := (List.range o).map (fun oo =>
        (random_vec o (fun k => dist (o * i + k))).getD oo 0)
      bias_gradient := List.replicate o 0
      activation_fn := fn
      previous_inputs := List.replicate i 0
      previous_weighted_sums := List.replicate o 0 } := by
    unfold Layer.random check_sizes
    rw [if_neg (by omega : ¬ i = 0), if_neg (by omega : ¬ o = 0)]
  refine ⟨_, heq, ?_⟩
  refine ⟨by simp, ?_, by simp, ?_, by simp, by simp, by simp, by simp, ho, hi⟩
  · intro r hr
    obtain ⟨a, -, rfl⟩ := List.mem_map.mp hr
    simp
  · intro r hr
    rw [List.eq_of_mem_replicate hr]
    simp

theorem construct_layers_go_cons (ctor : ℕ → ℕ → Except LayerError Layer)
    (p : ℕ × ℕ) (pt : List (ℕ × ℕ)) (l : Layer) (h : ctor p.1 p.2 = .ok l) :
    construct_layers_go ctor (p :: pt) =
      match construct_layers_go ctor pt with
      | .error e => .error e
      | .ok ls => .ok (l :: ls) := by
  simp only [construct_layers_go, h]

theorem construct_layers_match (ctor : ℕ → ℕ → Except LayerError Layer)
    (hctor : ∀ i o, 0 < i → 0 < o → ∃ l, ctor i o = .ok l ∧ LayerWF l i o) :
    ∀ (sizes : List ℕ), 2 ≤ sizes.length → (∀ s ∈ sizes, 0 < s) →
    ∃ ls, construct_layers sizes ctor = .ok ls ∧ layers_match ls sizes ∧
      ls.length + 1 = sizes.length
  | [], h2, hpos => by simp at h2
  | [s], h2, hpos => by simp at h2
  | i :: o :: rest, h2, hpos => by
    obtain ⟨l, hctorEq, hWF⟩ := hctor i o (hpos i (by simp)) (hpos o (by simp))
    cases rest with
    | nil =>
      refine ⟨[l], ?_, ⟨hWF, rfl⟩, by simp⟩
      unfold construct_layers
      simp only [List.tail_cons, List.zip_cons_cons]
      rw [construct_layers_go_cons ctor (i, o) _ l hctorEq]
      rfl
    | cons r rt =>
      obtain ⟨ls2, hgo, hmatch, hlen⟩ :=
        construct_layers_match ctor hctor (o :: r :: rt) (by simp)
          (fun s hs => hpos s (by simp at hs ⊢; tauto))
      refine ⟨l :: ls2, ?_, ⟨hWF, hmatch⟩, by simpa using hlen⟩
      unfold construct_layers at hgo ⊢
      simp only [List.tail_cons] at hgo ⊢
      rw [List.zip_cons_cons, construct_layers_go_cons ctor (i, o) _ l hctorEq, hgo]

theorem check_layer_sizes_short (sizes : List ℕ) (h : sizes.length < 2) :
    check_layer_sizes sizes = .error (.TooFewLayers sizes.length) := by
  unfold check_layer_sizes
  rw [if_pos h]

theorem check_layer_sizes_ok (sizes : List ℕ) (h2 : 2 ≤ sizes.length)
    (hpos : ∀ s ∈ sizes, 0 < s) : check_layer_sizes sizes = .ok () := by
  unfold check_layer_sizes
  rw [if_neg (by omega)]
  have hnone : sizes.findIdx? (fun x => x == 0) = none :=
    List.findIdx?_eq_none_iff.mpr (fun x hx => by
      have := hpos x hx
      simp
      omega)
  rw [hnone]

theorem findIdx_zero_first :
    ∀ (sizes : List ℕ) (i : ℕ), 0 ∈ sizes →
    ∃ j, List.findIdx? (fun x => x == 0) sizes i = some (i + j) ∧ j < sizes.length ∧
      sizes.getD j 1 = 0 ∧ ∀ k, k < j → sizes.getD k 1 ≠ 0
  | [], i, h => absurd h (by simp)
  | x :: xs, i, h => by
    by_cases hx : x = 0
    · refine ⟨0, ?_, by simp, by simp [hx, List.getD], ?_⟩
      · rw [List.findIdx?_cons, if_pos (by simp [hx])]
        simp
      · intro k hk
        omega
    · have hmem : 0 ∈ xs := by
        rcases List.mem_cons.mp h with h1 | h1
        · exact absurd h1.symm hx
        · exact h1
      obtain ⟨j, hfind, hlt, hget, hbefore⟩ := findIdx_zero_first xs (i + 1) hmem
      refine ⟨j + 1, ?_, by simpa using hlt, by simpa [List.getD] using hget, ?_⟩
      · rw [List.findIdx?_cons, if_neg (by simp [hx])]
        rw [hfind]
        congr 1
        omega
      · intro k hk
        cases k with
        | zero => simpa [List.getD] using hx
        | succ k2 =>
          have := hbefore k2 (by omega)
          simpa [List.getD] using this

/-! ### Network construction, apply_gradient and learn -/

theorem Network.zeros_match (sizes : List ℕ) (fn : ActivationFn) (h2 : 2 ≤ sizes.length)
    (hpos : ∀ s ∈ sizes, 0 < s) :
    ∃ net, Network.zeros sizes fn = .ok net ∧ layers_match net.layers sizes ∧
      net.layers.length + 1 = sizes.length := by
  obtain ⟨ls, hc, hm, hl⟩ := construct_layers_match (fun i o => Layer.zeros i o fn)
    (fun i o hi ho => Layer.zeros_ok i o hi ho fn) sizes h2 hpos
  refine ⟨{ layers := ls }, ?_, hm, hl⟩
  unfold Network.zeros
  rw [check_layer_sizes_ok sizes h2 hpos, hc]

theorem Network.random_match (sizes : List ℕ) (fn : ActivationFn) (dist : ℕ → ℚ)
    (h2 : 2 ≤ sizes.length) (hpos : ∀ s ∈ sizes, 0 < s) :
    ∃ net, Network.random sizes fn dist = .ok net ∧ layers_match net.layers sizes ∧
      net.layers.length + 1 = sizes.length := by
  obtain ⟨ls, hc, hm, hl⟩ := construct_layers_match (fun i o => Layer.random i o fn dist)
    (fun i o hi ho => Layer.random_ok i o hi ho fn dist) sizes h2 hpos
  refine ⟨{ layers := ls }, ?_, hm, hl⟩
  unfold Network.random
  rw [check_layer_sizes_ok sizes h2 hpos, hc]

theorem Network.zeros_short (sizes : List ℕ) (fn : ActivationFn) (h : sizes.length < 2) :
    Network.zeros sizes fn = .error (.TooFewLayers sizes.length) := by
  unfold Network.zeros
  rw [check_layer_sizes_short sizes h]

theorem Network.random_short (sizes : List ℕ) (fn : ActivationFn) (dist : ℕ → ℚ)
    (h : sizes.length < 2) :
    Network.random sizes fn dist = .error (.TooFewLayers sizes.length) := by
  unfold Network.random
  rw [check_layer_sizes_short sizes h]

theorem Network.zeros_zero_size (sizes : List ℕ) (fn : ActivationFn) (j : ℕ)
    (hcheck : check_layer_sizes sizes = .error (.ZeroLayerSize j)) :
    Network.zeros sizes fn = .error (.ZeroLayerSize j) := by
  unfold Network.zeros
  rw [hcheck]

theorem Network.random_zero_size (sizes : List ℕ) (fn : ActivationFn) (dist : ℕ → ℚ)
    (j : ℕ) (hcheck : check_layer_sizes sizes = .error (.ZeroLayerSize j)) :
    Network.random sizes fn dist = .error (.ZeroLayerSize j) := by
  unfold Network.random
  rw [hcheck]

theorem check_layer_sizes_zero (sizes : List ℕ) (h2 : 2 ≤ sizes.length) (h0 : 0 ∈ sizes) :
    ∃ j, check_layer_sizes sizes = .error (.ZeroLayerSize j) ∧ j < sizes.length ∧
      sizes.getD j 1 = 0 ∧ ∀ k, k < j → sizes.getD k 1 ≠ 0 := by
  obtain ⟨j, hfind, hlt, hget, hbefore⟩ := findIdx_zero_first sizes 0 h0
  refine ⟨j, ?_, hlt, hget, hbefore⟩
  unfold check_layer_sizes
  rw [if_neg (by omega)]
  rw [show List.findIdx? (fun x => x == 0) sizes = some j by simpa using hfind]

theorem apply_gradient_spec (l : Layer) (isz osz : ℕ) (h : LayerWF l isz osz) (scale : ℚ) :
    (l.apply_gradient scale).weights.length = osz ∧
    (∀ o, o < osz → ∀ i, i < isz →
      ((l.apply_gradient scale).weights.getD o []).getD i 0 =
        (l.weights.getD o []).getD i 0 + (l.weight_gradient.getD o []).getD i 0 * scale) ∧
    (l.apply_gradient scale).biases.length = osz ∧
    (∀ o, o < osz → (l.apply_gradient scale).biases.getD o 0 =
      l.biases.getD o 0 + l.bias_gradient.getD o 0 * scale) ∧
    (∀ r ∈ (l.apply_gradient scale).weight_gradient, ∀ x ∈ r, x = 0) ∧
    (∀ x ∈ (l.apply_gradient scale).bias_gradient, x = 0) ∧
    (l.apply_gradient scale).previous_inputs = l.previous_inputs ∧
    (l.apply_gradient scale).previous_weighted_sums = l.previous_weighted_sums ∧
    (l.apply_gradient scale).activation_fn = l.activation_fn := by
  obtain ⟨hw, hrows, hwg, hwgrows, hbs, hbg, hpi, hpw, hosz, hisz⟩ := h
  refine ⟨?_, ?_, ?_, ?_, ?_, ?_, rfl, rfl, rfl⟩
  · show (List.zipWith _ l.weights l.weight_gradient).length = osz
    rw [List.length_zipWith, hw, hwg, Nat.min_self]
  · intro o ho i hi
    show ((List.zipWith (fun wr gr => List.zipWith (fun w g => w + g * scale) wr gr)
      l.weights l.weight_gradient).getD o []).getD i 0 = _
    rw [getD_zipWith _ _ _ o [] [] [] (by omega) (by omega),
      getD_zipWith (fun w g => w + g * scale) _ _ i 0 0 0
        (by rw [hrows _ (getD_mem _ _ _ (by omega))]; omega)
        (by rw [hwgrows _ (getD_mem _ _ _ (by omega))]; omega)]
  · show (List.zipWith _ l.biases l.bias_gradient).length = osz
    rw [List.length_zipWith, hbs, hbg, Nat.min_self]
  · intro o ho
    show (List.zipWith (fun b g => b + g * scale) l.biases l.bias_gradient).getD o 0 = _
    rw [getD_zipWith (fun b g => b + g * scale) _ _ o 0 0 0 (by omega) (by omega)]
  · intro r hr
    have hr2 : r ∈ l.weight_gradient.map (fun rr => rr.map (fun _ => (0 : ℚ))) := hr
    obtain ⟨rr, -, rfl⟩ := List.mem_map.mp hr2
    intro x hx
    obtain ⟨y, -, rfl⟩ := List.mem_map.mp hx
    rfl
  · intro x hx
    have hx2 : x ∈ l.bias_gradient.map (fun _ => (0 : ℚ)) := hx
    obtain ⟨y, -, rfl⟩ := List.mem_map.mp hx2
    rfl

theorem apply_gradient_WF (l : Layer) (isz osz : ℕ) (h : LayerWF l isz osz) (scale : ℚ) :
    LayerWF (l.apply_gradient scale) isz osz := by
  obtain ⟨hw, hrows, hwg, hwgrows, hbs, hbg, hpi, hpw, hosz, hisz⟩ := h
  refine ⟨?_, ?_, ?_, ?_, ?_, ?_, hpi, hpw, hosz, hisz⟩
  · show (List.zipWith _ l.weights l.weight_gradient).length = osz
    rw [List.length_zipWith, hw, hwg, Nat.min_self]
  · intro r hr
    have hr2 : r ∈ List.zipWith (fun wr gr => List.zipWith (fun w g => w + g * scale) wr gr)
      l.weights l.weight_gradient := hr
    refine forall_mem_of_getD _ [] (fun rr => rr.length = isz) ?_ r hr2
    intro j hj
    have hjlen : j < osz := by
      rw [List.length_zipWith, hw, hwg, Nat.min_self] at hj
      exact hj
    rw [getD_zipWith _ _ _ j [] [] [] (by omega) (by omega), List.length_zipWith,
      hrows _ (getD_mem _ _ _ (by omega)), hwgrows _ (getD_mem _ _ _ (by omega)),
      Nat.min_self]
  · show (l.weight_gradient.map (fun r => r.map (fun _ => (0 : ℚ)))).length = osz
    rw [List.length_map, hwg]
  · intro r hr
    have hr2 : r ∈ l.weight_gradient.map (fun rr => rr.map (fun _ => (0 : ℚ))) := hr
    obtain ⟨rr, hrr, rfl⟩ := List.mem_map.mp hr2
    rw [List.length_map]
    exact hwgrows rr hrr
  · show (List.zipWith _ l.biases l.bias_gradient).length = osz
    rw [List.length_zipWith, hbs, hbg, Nat.min_self]
  · show (l.bias_gradient.map (fun _ => (0 : ℚ))).length = osz
    rw [List.length_map, hbg]

theorem learn_empty (n : Network) (loss : LossFnChecked) (rate : ℚ) :
    n.learn [] loss rate = (n, .ok ()) := rfl

theorem learn_ok (n : Network) (d : List Sample) (loss : LossFnChecked) (rate : ℚ)
    (n1 : Network) (hne : d ≠ []) (hbp : n.backpropagate loss d = (n1, .ok ())) :
    n.learn d loss rate =
      ({ layers := n1.layers.map (fun l => l.apply_gradient (-rate / (d.length : ℚ))) },
       .ok ()) := by
  unfold Network.learn
  rw [if_neg (by simpa using hne), hbp]

theorem learn_err (n : Network) (d : List Sample) (loss : LossFnChecked) (rate : ℚ)
    (n1 : Network) (e : NetworkError) (hne : d ≠ [])
    (hbp : n.backpropagate loss d = (n1, .error e)) :
    n.learn d loss rate = (n1, .error e) := by
  unfold Network.learn
  rw [if_neg (by simpa using hne), hbp]

/-! ### Gradient-additivity support -/

theorem zipWith_add_zero_mat :
    ∀ (z w : List (List ℚ)), (∀ r ∈ z, ∀ x ∈ r, x = 0) → z.length = w.length →
    (∀ j, j < z.length → (z.getD j []).length = (w.getD j []).length) →
    List.zipWith (fun r s => List.zipWith (fun a b => a + b) r s) z w = w
  | [], [], _, _, _ => rfl
  | [], _ :: _, _, h, _ => by simp at h
  | _ :: _, [], _, h, _ => by simp at h
  | r :: z, s :: w, hz, hlen, hrows => by
    simp only [List.zipWith_cons_cons]
    rw [zipWith_add_zero_left r s (hz r (by simp)) (by simpa [List.getD] using hrows 0 (by simp)),
      zipWith_add_zero_mat z w (fun rr hr => hz rr (by simp [hr])) (by simpa using hlen)
        (fun j hj => by simpa [List.getD] using hrows (j + 1) (by simpa using Nat.succ_lt_succ hj))]

theorem forall₂_refl_of_mem {P : Layer → Layer → Prop} :
    ∀ (ls : List Layer), (∀ x ∈ ls, P x x) → List.Forall₂ P ls ls
  | [], _ => List.Forall₂.nil
  | l :: ls, h => List.Forall₂.cons (h l (by simp))
      (forall₂_refl_of_mem ls (fun x hx => h x (by simp [hx])))

theorem core_eq_cacheMerge :
    ∀ (xs ys : List Layer), xs.length = ys.length →
    List.Forall₂ core_eq xs (List.zipWith (fun a b => { a with
      previous_inputs := b.previous_inputs,
      previous_weighted_sums := b.previous_weighted_sums }) xs ys)
  | [], [], _ => by
    simp only [List.zipWith_nil_right]
    exact List.Forall₂.nil
  | [], _ :: _, h => by simp at h
  | _ :: _, [], h => by simp at h
  | a :: xs, b :: ys, h => by
    simp only [List.zipWith_cons_cons]
    exact List.Forall₂.cons ⟨rfl, rfl, rfl, rfl, rfl⟩
      (core_eq_cacheMerge xs ys (by simpa using h))

theorem layers_match_cacheMerge :
    ∀ (xs ys : List Layer) (sizes : List ℕ), layers_match xs sizes →
    layers_match ys sizes →
    layers_match (List.zipWith (fun a b => { a with
      previous_inputs := b.previous_inputs,
      previous_weighted_sums := b.previous_weighted_sums }) xs ys) sizes
  | [], [], sizes, hx, hy => by
    simp only [List.zipWith_nil_right]
    exact hx
  | [], b :: ys, sizes, hx, hy => by
    simp only [List.zipWith_nil_left]
    exact hx
  | a :: xs, [], sizes, hx, hy => by
    have h1 := layers_match_length (a :: xs) sizes hx
    have h2 := layers_match_length [] sizes hy
    simp at h1 h2
    omega
  | a :: xs, b :: ys, [], hx, hy => absurd hx (by simp [layers_match])
  | a :: xs, b :: ys, [s], hx, hy => absurd hx (by simp [layers_match])
  | a :: xs, b :: ys, i :: o :: rest, hx, hy => by
    obtain ⟨hWFa, hmx⟩ := hx
    obtain ⟨hWFb, hmy⟩ := hy
    simp only [List.zipWith_cons_cons]
    refine ⟨?_, layers_match_cacheMerge xs ys (o :: rest) hmx hmy⟩
    obtain ⟨aw, arows, awg, awgrows, abs, abg, api, apw, hosz, hisz⟩ := hWFa
    obtain ⟨bw, brows, bwg, bwgrows, bbs, bbg, bpi, bpw, -, -⟩ := hWFb
    exact ⟨aw, arows, awg, awgrows, abs, abg, bpi, bpw, hosz, hisz⟩

theorem grads_match_of_layers :
    ∀ (ys : List Layer) (sizes : List ℕ), layers_match ys sizes →
    grads_match (ys.map (fun l => (l.bias_gradient, l.weight_gradient))) sizes
  | [], sizes, h => h
  | b :: ys, [], h => absurd h (by simp [layers_match])
  | b :: ys, [s], h => absurd h (by simp [layers_match])
  | b :: ys, i :: o :: rest, h => by
    obtain ⟨hWF, hm⟩ := h
    obtain ⟨bw, brows, bwg, bwgrows, bbs, bbg, bpi, bpw, -, -⟩ := hWF
    exact ⟨bbg, bwg, bwgrows, grads_match_of_layers ys (o :: rest) hm⟩

theorem merge_addGrads_eq :
    ∀ (xs ys : List Layer) (sizes : List ℕ), layers_match xs sizes →
    layers_match ys sizes →
    List.Forall₂ (fun a b => a.weights = b.weights ∧ a.biases = b.biases ∧
      a.activation_fn = b.activation_fn) xs ys →
    (∀ l ∈ xs, zero_grads l) →
    List.zipWith (fun l p => l.addGrads p.1 p.2)
      (List.zipWith (fun a b => { a with
        previous_inputs := b.previous_inputs,
        previous_weighted_sums := b.previous_weighted_sums }) xs ys)
      (ys.map (fun l => (l.bias_gradient, l.weight_gradient))) = ys
  | [], [], sizes, hx, hy, hf, hz => rfl
  | [], b :: ys, sizes, hx, hy, hf, hz => by cases hf
  | a :: xs, [], sizes, hx, hy, hf, hz => by cases hf
  | a :: xs, b :: ys, [], hx, hy, hf, hz => absurd hx (by simp [layers_match])
  | a :: xs, b :: ys, [s], hx, hy, hf, hz => absurd hx (by simp [layers_match])
  | a :: xs, b :: ys, i :: o :: rest, hx, hy, hf, hz => by
    obtain ⟨hWFa, hmx⟩ := hx
    obtain ⟨hWFb, hmy⟩ := hy
    rcases hf with _ | ⟨⟨hwab, hbab, haab⟩, hftail⟩
    have hza := hz a (by simp)
    simp only [List.zipWith_cons_cons, List.map_cons]
    rw [merge_addGrads_eq xs ys (o :: rest) hmx hmy hftail (fun l hl => hz l (by simp [hl]))]
    congr 1
    obtain ⟨aw, arows, awg, awgrows, abs, abg, api, apw, hosz, hisz⟩ := hWFa
    obtain ⟨bw, brows, bwg, bwgrows, bbs, bbg, bpi, bpw, -, -⟩ := hWFb
    refine Layer.ext7 hwab ?_ hbab ?_ haab rfl rfl
    · show List.zipWith (fun r s => List.zipWith (fun c d => c + d) r s)
        a.weight_gradient b.weight_gradient = b.weight_gradient
      refine zipWith_add_zero_mat a.weight_gradient b.weight_gradient hza.2 (by omega) ?_
      intro j hj
      rw [awgrows _ (getD_mem _ _ _ (by omega)), bwgrows _ (getD_mem _ _ _ (by omega))]
    · show List.zipWith (fun c d => c + d) a.bias_gradient b.bias_gradient = b.bias_gradient
      exact zipWith_add_zero_left a.bias_gradient b.bias_gradient hza.1 (by omega)

theorem addGrads_self_forall₂ :
    ∀ (ys : List Layer),
    List.Forall₂ (fun x y => x.bias_gradient =
        List.zipWith (fun a b => a + b) y.bias_gradient y.bias_gradient ∧
      x.weight_gradient = List.zipWith (fun r s => List.zipWith (fun a b => a + b) r s)
        y.weight_gradient y.weight_gradient)
      (List.zipWith (fun l p => l.addGrads p.1 p.2) ys
        (ys.map (fun l => (l.bias_gradient, l.weight_gradient)))) ys
  | [] => List.Forall₂.nil
  | b :: ys => by
    simp only [List.map_cons, List.zipWith_cons_cons]
    exact List.Forall₂.cons ⟨rfl, rfl⟩ (addGrads_self_forall₂ ys)

/-! ### Claim theorems -/

/-- **C9**: for every network, loss function and learning rate, `learn` on the
empty dataset returns success and leaves the entire network state — every
layer's weights, biases, gradient accumulators and scratch caches — exactly as
it was before the call. -/
theorem C9_learn_empty_noop (n : Network) (loss : LossFnChecked) (rate : ℚ) :
    n.learn [] loss rate = (n, .ok ()) := rfl

/-- **C8**: calling `Network::forward` with an input whose length differs from
the first layer's input size fails with the wrapped `InputSizeMismatch` error
(carrying the layer's input size and the given length) and returns the network
state unchanged; in particular every layer's weights and biases are unchanged
by the call. -/
theorem C8_forward_size_mismatch (n : Network) (l : Layer) (ls : List Layer)
    (input : List ℚ) (hlayers : n.layers = l :: ls)
    (hlen : input.length ≠ l.input_size) :
    n.forward input =
      (n, .error (.LayerError (.InputSizeMismatch l.input_size input.length))) ∧
    (n.forward input).1.layers.map Layer.weights = n.layers.map Layer.weights ∧
    (n.forward input).1.layers.map Layer.biases = n.layers.map Layer.biases := by
  have herr := Layer.forward_mismatch l input hlen
  have h1 : forward_layers n.layers input =
      (n.layers, .error (.InputSizeMismatch l.input_size input.length)) := by
    rw [hlayers]
    exact forward_layers_cons_err l ls input _ herr
  have h2 : n.forward input =
      (n, .error (.LayerError (.InputSizeMismatch l.input_size input.length))) := by
    rw [Network.forward_eq, h1]
    exact Prod.ext (Network.ext1 rfl) rfl
  exact ⟨h2, by rw [h2], by rw [h2]⟩

/-- Witness for C8 at the concrete network `net0` and input `[1, 2]`. -/
theorem C8_forward_size_mismatch_witness :
    net0.layers = layer0 :: [] ∧
    ([1, 2] : List ℚ).length ≠ layer0.input_size ∧
    (net0.forward [1, 2] =
      (net0, .error (.LayerError
        (.InputSizeMismatch layer0.input_size ([1, 2] : List ℚ).length))) ∧
     (net0.forward [1, 2]).1.layers.map Layer.weights = net0.layers.map Layer.weights ∧
     (net0.forward [1, 2]).1.layers.map Layer.biases = net0.layers.map Layer.biases) :=
  ⟨rfl, by decide, C8_forward_size_mismatch net0 layer0 [] [1, 2] rfl (by decide)⟩

/-- **C3**: for every (well-formed) layer state and every scale, including zero
and negative scales, `apply_gradient(scale)` sets each weight to
`weight + weight_gradient * scale` and each bias to
`bias + bias_gradient * scale`, and afterwards both gradient accumulators are
exactly zero in every component. -/
theorem C3_apply_gradient (l : Layer) (isz osz : ℕ) (h : LayerWF l isz osz)
    (scale : ℚ) :
    (∀ o, o < osz → ∀ i, i < isz →
      ((l.apply_gradient scale).weights.getD o []).getD i 0 =
        (l.weights.getD o []).getD i 0 + (l.weight_gradient.getD o []).getD i 0 * scale) ∧
    (∀ o, o < osz → (l.apply_gradient scale).biases.getD o 0 =
      l.biases.getD o 0 + l.bias_gradient.getD o 0 * scale) ∧
    (∀ r ∈ (l.apply_gradient scale).weight_gradient, ∀ x ∈ r, x = 0) ∧
    (∀ x ∈ (l.apply_gradient scale).bias_gradient, x = 0) := by
  obtain ⟨-, h2, -, h4, h5, h6, -, -, -⟩ := apply_gradient_spec l isz osz h scale
  exact ⟨h2, h4, h5, h6⟩

/-- Witness for C3 at the concrete layer `layer5` and the negative scale -2. -/
theorem C3_apply_gradient_witness :
    LayerWF layer5 1 1 ∧
    ((∀ o, o < 1 → ∀ i, i < 1 →
      ((layer5.apply_gradient (-2)).weights.getD o []).getD i 0 =
        (layer5.weights.getD o []).getD i 0 +
          (layer5.weight_gradient.getD o []).getD i 0 * (-2)) ∧
    (∀ o, o < 1 → (layer5.apply_gradient (-2)).biases.getD o 0 =
      layer5.biases.getD o 0 + layer5.bias_gradient.getD o 0 * (-2)) ∧
    (∀ r ∈ (layer5.apply_gradient (-2)).weight_gradient, ∀ x ∈ r, x = 0) ∧
    (∀ x ∈ (layer5.apply_gradient (-2)).bias_gradient, x = 0)) :=
  ⟨by decide, C3_apply_gradient layer5 1 1 (by decide) (-2)⟩

/-- **C1**: `backpropagation_step` on a well-formed layer whose scratch caches
were set by an immediately preceding forward call (their lengths are the
layer's dimensions): for each output index o, with
`local = activation_fn.derivative(previous_weighted_sums[o], previous_output[o])
* output_gradient[o]`, it adds `local` to `bias_gradient[o]`, adds
`previous_inputs[i] * local` to `weight_gradient[o][i]` for every input index
i, and returns the length-`input_size` vector whose component i is the sum
over o of `weights[o][i] * local`. -/
theorem C1_backpropagation_step (l : Layer) (isz osz : ℕ) (h : LayerWF l isz osz)
    (previous_output output_gradient : List ℚ) :
    (∀ o, o < osz →
      (l.backpropagation_step previous_output output_gradient).1.bias_gradient.getD o 0 =
        l.bias_gradient.getD o 0 +
          l.activation_fn.derivative (l.previous_weighted_sums.getD o 0)
            (previous_output.getD o 0) * output_gradient.getD o 0) ∧
    (∀ o, o < osz → ∀ i, i < isz →
      ((l.backpropagation_step previous_output output_gradient).1.weight_gradient.getD
          o []).getD i 0 =
        (l.weight_gradient.getD o []).getD i 0 + l.previous_inputs.getD i 0 *
          (l.activation_fn.derivative (l.previous_weighted_sums.getD o 0)
            (previous_output.getD o 0) * output_gradient.getD o 0)) ∧
    (l.backpropagation_step previous_output output_gradient).2.length = isz ∧
    (∀ i, i < isz →
      (l.backpropagation_step previous_output output_gradient).2.getD i 0 =
        ((List.range osz).map (fun o => (l.weights.getD o []).getD i 0 *
          (l.activation_fn.derivative (l.previous_weighted_sums.getD o 0)
            (previous_output.getD o 0) * output_gradient.getD o 0))).sum) := by
  obtain ⟨-, ⟨-, b2⟩, ⟨-, -, w3⟩, i1, i2⟩ :=
    backpropagation_step_spec l isz osz h previous_output output_gradient
  exact ⟨b2, w3, i1, i2⟩

/-- Witness for C1 at the concrete layer `layer5`, previous output `[1]` and
output gradient `[2]`. -/
theorem C1_backpropagation_step_witness :
    LayerWF layer5 1 1 ∧
    ((∀ o, o < 1 →
      (layer5.backpropagation_step [1] [2]).1.bias_gradient.getD o 0 =
        layer5.bias_gradient.getD o 0 +
          layer5.activation_fn.derivative (layer5.previous_weighted_sums.getD o 0)
            (([1] : List ℚ).getD o 0) * ([2] : List ℚ).getD o 0) ∧
    (∀ o, o < 1 → ∀ i, i < 1 →
      ((layer5.backpropagation_step [1] [2]).1.weight_gradient.getD o []).getD i 0 =
        (layer5.weight_gradient.getD o []).getD i 0 + layer5.previous_inputs.getD i 0 *
          (layer5.activation_fn.derivative (layer5.previous_weighted_sums.getD o 0)
            (([1] : List ℚ).getD o 0) * ([2] : List ℚ).getD o 0)) ∧
    (layer5.backpropagation_step [1] [2]).2.length = 1 ∧
    (∀ i, i < 1 →
      (layer5.backpropagation_step [1] [2]).2.getD i 0 =
        ((List.range 1).map (fun o => (layer5.weights.getD o []).getD i 0 *
          (layer5.activation_fn.derivative (layer5.previous_weighted_sums.getD o 0)
            (([1] : List ℚ).getD o 0) * ([2] : List ℚ).getD o 0))).sum)) :=
  ⟨by decide, C1_backpropagation_step layer5 1 1 (by decide) [1] [2]⟩

theorem sq_zip_nonneg :
    ∀ (a b : List ℚ), ∀ x ∈ List.zipWith (fun p q => (p - q) * (p - q)) a b, 0 ≤ x
  | [], _, x, hx => by simp at hx
  | _ :: _, [], x, hx => by simp at hx
  | p :: a, q :: b, x, hx => by
    simp only [List.zipWith_cons_cons] at hx
    rcases List.mem_cons.mp hx with h1 | h1
    · rw [h1]
      exact mul_self_nonneg _
    · exact sq_zip_nonneg a b x h1

/-- **C5**: the MSE loss under the `LossFn` contract.  With equal-length
vectors, `apply` returns the non-negative mean of the squared component
differences, and `partial_gradient` (modelled from the spec, see
`LossFn.partial_gradient`) returns a vector of the output's length whose
component i equals `2 * (output_i - expected_i) / n`.  With different lengths
both fail with the size-mismatch error carrying the two lengths. -/
theorem C5_mse_contract (output expected : List ℚ) :
    (output.length = expected.length →
      LossFn.apply MSE output expected = .ok
        ((List.zipWith (fun x y => (x - y) * (x - y)) output expected).sum /
          (output.length : ℚ)) ∧
      0 ≤ (List.zipWith (fun x y => (x - y) * (x - y)) output expected).sum /
          (output.length : ℚ) ∧
      (∃ g, LossFn.partial_gradient MSE output expected = .ok g ∧
        g.length = output.length ∧
        ∀ i, i < output.length → g.getD i 0 =
          2 * (output.getD i 0 - expected.getD i 0) / (output.length : ℚ))) ∧
    (output.length ≠ expected.length →
      LossFn.apply MSE output expected =
        .error (.OutputSizeMismatch output.length expected.length) ∧
      LossFn.partial_gradient MSE output expected =
        .error (.OutputSizeMismatch output.length expected.length)) := by
  constructor
  · intro heq
    refine ⟨?_, ?_, ?_⟩
    · unfold LossFn.apply
      rw [if_neg (by omega)]
      rfl
    · refine div_nonneg (List.sum_nonneg ?_) (by positivity)
      intro x hx
      exact sq_zip_nonneg output expected x hx
    · refine ⟨(List.range output.length).map
        (fun i => MSE.partial_derivative output expected i), ?_, ?_, ?_⟩
      · unfold LossFn.partial_gradient
        rw [if_neg (by omega)]
      · rw [List.length_map, List.length_range]
      · intro i hi
        rw [getD_map_range _ _ _ _ hi]
        rfl
  · intro hne
    constructor
    · unfold LossFn.apply
      rw [if_pos hne]
    · unfold LossFn.partial_gradient
      rw [if_pos hne]

/-- Witness for C5 at the concrete vectors `[0]`, `[1]` (equal lengths) — the
mismatch branch is exercised by the implication with a trivially false
hypothesis left unused. -/
theorem C5_mse_contract_witness :
    (([0] : List ℚ).length = ([1] : List ℚ).length) ∧
    (LossFn.apply MSE [0] [1] = .ok
        ((List.zipWith (fun x y => (x - y) * (x - y)) ([0] : List ℚ) [1]).sum /
          ((([0] : List ℚ).length : ℕ) : ℚ)) ∧
      0 ≤ (List.zipWith (fun x y => (x - y) * (x - y)) ([0] : List ℚ) [1]).sum /
          ((([0] : List ℚ).length : ℕ) : ℚ) ∧
      (∃ g, LossFn.partial_gradient MSE [0] [1] = .ok g ∧
        g.length = ([0] : List ℚ).length ∧
        ∀ i, i < ([0] : List ℚ).length → g.getD i 0 =
          2 * (([0] : List ℚ).getD i 0 - ([1] : List ℚ).getD i 0) /
            ((([0] : List ℚ).length : ℕ) : ℚ))) :=
  ⟨rfl, (C5_mse_contract [0] [1]).1 rfl⟩

/-- **C2** (amended): `learn` on the empty dataset is a no-op success, calling
neither `backpropagate` nor `apply_gradient`.  On a non-empty dataset it calls
`backpropagate` once on the whole dataset; when that call succeeds it then
applies `apply_gradient(-rate / dataset.length)` to every layer — exactly one
weight update for the whole call; when `backpropagate` fails, `learn` returns
that error and `apply_gradient` is not applied to any layer. -/
theorem C2_learn_structure (n : Network) (d : List Sample) (loss : LossFnChecked)
    (rate : ℚ) :
    (d = [] → n.learn d loss rate = (n, .ok ())) ∧
    (d ≠ [] → ∀ n1, n.backpropagate loss d = (n1, .ok ()) →
      n.learn d loss rate = (Network.mk (n1.layers.map
        (fun l => l.apply_gradient (-rate / (d.length : ℚ)))), .ok ())) ∧
    (d ≠ [] → ∀ n1 e, n.backpropagate loss d = (n1, .error e) →
      n.learn d loss rate = (n1, .error e)) := by
  refine ⟨?_, ?_, ?_⟩
  · rintro rfl
    rfl
  · intro hne n1 hbp
    exact learn_ok n d loss rate n1 hne hbp
  · intro hne n1 e hbp
    exact learn_err n d loss rate n1 e hne hbp

/-- Witness for the amended C2: on `net0` with the single sample `sample0`,
`backpropagate` succeeds and `learn` performs the one scaled update. -/
theorem C2_learn_structure_witness :
    ([sample0] ≠ ([] : List Sample)) ∧
    net0.backpropagate MSE [sample0] = (net0, .ok ()) ∧
    net0.learn [sample0] MSE 1 = (Network.mk (net0.layers.map
      (fun l => l.apply_gradient (-(1 : ℚ) / (([sample0] : List Sample).length : ℚ)))),
      .ok ()) := by
  have hbp : net0.backpropagate MSE [sample0] = (net0, .ok ()) := by
    simp [Network.backpropagate, Network.forward, forward_layers, Layer.forward,
      Layer.check_input_size, Layer.input_size, layer0, dotProduct, LossFn.partial_gradient,
      MSE, backward_pass, Layer.backpropagation_step, Layer.output_size, bpOuter, bpInner,
      Layer.bias_partial_derivative, actId, net0, List.range_succ, Layer.get_previous_input,
      Except.mapError, sample0]
  exact ⟨by decide, hbp, (C2_learn_structure net0 [sample0] MSE 1).2.1 (by decide) net0 hbp⟩

/-- **C2** counterexample: on the network `net5` (whose only layer holds the
nonzero bias-gradient accumulator `[5]`) and the non-empty dataset
`[sampleBad]` (input length 2 against input size 1), `learn` does not equal
"backpropagate, then apply_gradient on every layer": it returns the
input-size-mismatch error, and the accumulator is still `[5]` afterwards,
which `apply_gradient` would have zeroed. -/
theorem C2_learn_counterexample :
    Network.learn net5 [sampleBad] MSE 1 ≠
      (Network.mk ((Network.backpropagate net5 MSE [sampleBad]).1.layers.map
        (fun l => l.apply_gradient (-(1 : ℚ) / (([sampleBad] : List Sample).length : ℚ)))),
       .ok ()) ∧
    (Network.learn net5 [sampleBad] MSE 1).1.layers.map Layer.bias_gradient = [[5]] ∧
    (Network.learn net5 [sampleBad] MSE 1).2 =
      .error (.LayerError (.InputSizeMismatch 1 2)) := by
  have heval : Network.learn net5 [sampleBad] MSE 1 =
      (net5, .error (.LayerError (.InputSizeMismatch 1 2))) := by
    simp [Network.learn, Network.backpropagate, Network.forward, forward_layers,
      Layer.forward, Layer.check_input_size, Layer.input_size, layer5, net5, sampleBad,
      Except.mapError]
  refine ⟨?_, ?_, ?_⟩
  · intro hc
    have h2 := congrArg Prod.snd (heval.symm.trans hc)
    simp at h2
  · rw [heval]
    rfl
  · rw [heval]

/-- **C4**: for every size sequence of length at least 2 with all entries
positive, `Network::zeros` and `Network::random` return a network (not an
error), and on that network `forward` succeeds on every input vector of length
`layer_sizes[0]` and returns an output vector of length `layer_sizes[last]`. -/
theorem C4_constructors_forward (sizes : List ℕ) (fn : ActivationFn) (dist : ℕ → ℚ)
    (h2 : 2 ≤ sizes.length) (hpos : ∀ s ∈ sizes, 0 < s) :
    (∃ net, Network.zeros sizes fn = .ok net ∧
      ∀ input : List ℚ, input.length = sizes.headD 0 →
        ∃ net2 out, net.forward input = (net2, .ok out) ∧
          out.length = sizes.getLastD 0) ∧
    (∃ net, Network.random sizes fn dist = .ok net ∧
      ∀ input : List ℚ, input.length = sizes.headD 0 →
        ∃ net2 out, net.forward input = (net2, .ok out) ∧
          out.length = sizes.getLastD 0) := by
  constructor
  · obtain ⟨net, hok, hmatch, -⟩ := Network.zeros_match sizes fn h2 hpos
    refine ⟨net, hok, ?_⟩
    intro input hlen
    obtain ⟨ls2, out, heq, -, hlen2, -⟩ :=
      forward_layers_match net.layers sizes hmatch input hlen
    exact ⟨{ layers := ls2 }, out, Network.forward_ok_of net input ls2 out heq, hlen2⟩
  · obtain ⟨net, hok, hmatch, -⟩ := Network.random_match sizes fn dist h2 hpos
    refine ⟨net, hok, ?_⟩
    intro input hlen
    obtain ⟨ls2, out, heq, -, hlen2, -⟩ :=
      forward_layers_match net.layers sizes hmatch input hlen
    exact ⟨{ layers := ls2 }, out, Network.forward_ok_of net input ls2 out heq, hlen2⟩

/-- Witness for C4 at the concrete sizes `[1, 1]`, activation `actId` and the
constant draw stream. -/
theorem C4_constructors_forward_witness :
    (2 ≤ ([1, 1] : List ℕ).length) ∧ (∀ s ∈ ([1, 1] : List ℕ), 0 < s) ∧
    ((∃ net, Network.zeros [1, 1] actId = .ok net ∧
      ∀ input : List ℚ, input.length = ([1, 1] : List ℕ).headD 0 →
        ∃ net2 out, net.forward input = (net2, .ok out) ∧
          out.length = ([1, 1] : List ℕ).getLastD 0) ∧
     (∃ net, Network.random [1, 1] actId (fun _ => 1) = .ok net ∧
      ∀ input : List ℚ, input.length = ([1, 1] : List ℕ).headD 0 →
        ∃ net2 out, net.forward input = (net2, .ok out) ∧
          out.length = ([1, 1] : List ℕ).getLastD 0)) :=
  ⟨by decide, by decide,
   C4_constructors_forward [1, 1] actId (fun _ => 1) (by decide) (by decide)⟩

/-- **C7**: `Network::zeros` and `Network::random` fail with `TooFewLayers`
(carrying the given count) whenever fewer than 2 sizes are given; with
`ZeroLayerSize` carrying the index of the first zero entry whenever the list
has length at least 2 and contains a zero; and for the remaining positive size
lists construction never returns either error. -/
theorem C7_constructor_errors (sizes : List ℕ) (fn : ActivationFn) (dist : ℕ → ℚ) :
    (sizes.length < 2 →
      Network.zeros sizes fn = .error (.TooFewLayers sizes.length) ∧
      Network.random sizes fn dist = .error (.TooFewLayers sizes.length)) ∧
    (2 ≤ sizes.length → 0 ∈ sizes →
      ∃ j, j < sizes.length ∧ sizes.getD j 1 = 0 ∧
        (∀ k, k < j → sizes.getD k 1 ≠ 0) ∧
        Network.zeros sizes fn = .error (.ZeroLayerSize j) ∧
        Network.random sizes fn dist = .error (.ZeroLayerSize j)) ∧
    (2 ≤ sizes.length → (∀ s ∈ sizes, 0 < s) → ∀ k,
      Network.zeros sizes fn ≠ .error (.TooFewLayers k) ∧
      Network.zeros sizes fn ≠ .error (.ZeroLayerSize k) ∧
      Network.random sizes fn dist ≠ .error (.TooFewLayers k) ∧
      Network.random sizes fn dist ≠ .error (.ZeroLayerSize k)) := by
  refine ⟨?_, ?_, ?_⟩
  · intro h
    exact ⟨Network.zeros_short sizes fn h, Network.random_short sizes fn dist h⟩
  · intro h2 h0
    obtain ⟨j, hcheck, hlt, hget, hbefore⟩ := check_layer_sizes_zero sizes h2 h0
    exact ⟨j, hlt, hget, hbefore, Network.zeros_zero_size sizes fn j hcheck,
      Network.random_zero_size sizes fn dist j hcheck⟩
  · intro h2 hpos k
    obtain ⟨netz, hokz, -, -⟩ := Network.zeros_match sizes fn h2 hpos
    obtain ⟨netr, hokr, -, -⟩ := Network.random_match sizes fn dist h2 hpos
    refine ⟨?_, ?_, ?_, ?_⟩
    · rw [hokz]
      simp
    · rw [hokz]
      simp
    · rw [hokr]
      simp
    · rw [hokr]
      simp

/-- Witness for C7: the three branches at the concrete size lists `[5]`
(too few), `[2, 0, 3]` (first zero at index 1) and `[1, 1]` (well-formed). -/
theorem C7_constructor_errors_witness :
    (Network.zeros [5] actId = .error (.TooFewLayers ([5] : List ℕ).length) ∧
     Network.random [5] actId (fun _ => 1) =
       .error (.TooFewLayers ([5] : List ℕ).length)) ∧
    (∃ j, j < ([2, 0, 3] : List ℕ).length ∧ ([2, 0, 3] : List ℕ).getD j 1 = 0 ∧
      (∀ k, k < j → ([2, 0, 3] : List ℕ).getD k 1 ≠ 0) ∧
      Network.zeros [2, 0, 3] actId = .error (.ZeroLayerSize j) ∧
      Network.random [2, 0, 3] actId (fun _ => 1) = .error (.ZeroLayerSize j)) ∧
    (∀ k, Network.zeros [1, 1] actId ≠ .error (.TooFewLayers k) ∧
      Network.zeros [1, 1] actId ≠ .error (.ZeroLayerSize k) ∧
      Network.random [1, 1] actId (fun _ => 1) ≠ .error (.TooFewLayers k) ∧
      Network.random [1, 1] actId (fun _ => 1) ≠ .error (.ZeroLayerSize k)) :=
  ⟨(C7_constructor_errors [5] actId (fun _ => 1)).1 (by decide),
   (C7_constructor_errors [2, 0, 3] actId (fun _ => 1)).2.1 (by decide) (by decide),
   (C7_constructor_errors [1, 1] actId (fun _ => 1)).2.2 (by decide) (by decide)⟩

theorem apply_gradient_layers_match :
    ∀ (ls : List Layer) (sizes : List ℕ), layers_match ls sizes → ∀ scale : ℚ,
    layers_match (ls.map (fun l => l.apply_gradient scale)) sizes
  | [], sizes, h, scale => h
  | l :: ls, [], h, scale => absurd h (by simp [layers_match])
  | l :: ls, [s], h, scale => absurd h (by simp [layers_match])
  | l :: ls, i :: o :: rest, h, scale => by
    obtain ⟨hWF, hm⟩ := h
    exact ⟨apply_gradient_WF l i o hWF scale,
      apply_gradient_layers_match ls (o :: rest) hm scale⟩

theorem learn_WF (n : Network) (sizes : List ℕ) (h : layers_match n.layers sizes)
    (d : List Sample) (loss : LossFnChecked) (rate : ℚ) :
    layers_match ((n.learn d loss rate).1).layers sizes := by
  unfold Network.learn
  by_cases hd : d.isEmpty
  · rw [if_pos hd]
    exact h
  · rw [if_neg hd]
    have hbp := backpropagate_WF d n sizes h loss
    rcases hres : n.backpropagate loss d with ⟨n1, st⟩
    rw [hres] at hbp
    cases st with
    | error e => exact hbp
    | ok u =>
      cases u
      exact apply_gradient_layers_match n1.layers sizes hbp (-rate / (d.length : ℚ))

/-- **C10**: every network built by `zeros` or `random` from a valid size list
has exactly `sizes.length - 1 ≥ 1` layers, chained so that layer k is
well-formed with dimensions `sizes[k] → sizes[k+1]` (hence each layer's
output size equals its successor's input size); `forward`, `backpropagate`,
`learn` and per-layer `apply_gradient` preserve this shape — in particular
the layer count and every weight-matrix and bias-vector dimension — so the
non-empty-layers invariant needed by `backpropagate`'s access to the last
layer always holds, and `forward` on an input of the first layer's input size
succeeds with no `InputSizeMismatch` from any inner layer. -/
theorem C10_network_invariants (sizes : List ℕ) (fn : ActivationFn) (dist : ℕ → ℚ) :
    (2 ≤ sizes.length → (∀ s ∈ sizes, 0 < s) →
      (∀ net, Network.zeros sizes fn = .ok net →
        layers_match net.layers sizes ∧ net.layers.length + 1 = sizes.length ∧
          1 ≤ net.layers.length) ∧
      (∀ net, Network.random sizes fn dist = .ok net →
        layers_match net.layers sizes ∧ net.layers.length + 1 = sizes.length ∧
          1 ≤ net.layers.length)) ∧
    (∀ net : Network, layers_match net.layers sizes →
      (∀ input : List ℚ, layers_match ((net.forward input).1).layers sizes) ∧
      (∀ (d : List Sample) (loss : LossFnChecked),
        layers_match ((net.backpropagate loss d).1).layers sizes) ∧
      (∀ (d : List Sample) (loss : LossFnChecked) (rate : ℚ),
        layers_match ((net.learn d loss rate).1).layers sizes) ∧
      (∀ scale : ℚ,
        layers_match (net.layers.map (fun l => l.apply_gradient scale)) sizes) ∧
      (∀ input : List ℚ, input.length = sizes.headD 0 →
        ∃ net2 out, net.forward input = (net2, .ok out))) := by
  constructor
  · intro h2 hpos
    constructor
    · obtain ⟨net0c, hok0, hm0, hlen0⟩ := Network.zeros_match sizes fn h2 hpos
      intro net hok
      have heq : net0c = net := by
        have := hok0.symm.trans hok
        simpa using this
      rw [← heq]
      exact ⟨hm0, hlen0, by omega⟩
    · obtain ⟨net0c, hok0, hm0, hlen0⟩ := Network.random_match sizes fn dist h2 hpos
      intro net hok
      have heq : net0c = net := by
        have := hok0.symm.trans hok
        simpa using this
      rw [← heq]
      exact ⟨hm0, hlen0, by omega⟩
  · intro net hm
    refine ⟨?_, ?_, ?_, ?_, ?_⟩
    · intro input
      exact forward_layers_WF net.layers sizes hm input
    · intro d loss
      exact backpropagate_WF d net sizes hm loss
    · intro d loss rate
      exact learn_WF net sizes hm d loss rate
    · intro scale
      exact apply_gradient_layers_match net.layers sizes hm scale
    · intro input hlen
      obtain ⟨ls2, out, heq, -, -, -⟩ :=
        forward_layers_match net.layers sizes hm input hlen
      exact ⟨{ layers := ls2 }, out, Network.forward_ok_of net input ls2 out heq⟩

/-- Witness for C10 at the concrete sizes `[1, 1]` and the network `net0`. -/
theorem C10_network_invariants_witness :
    ((∀ net, Network.zeros [1, 1] actId = .ok net →
        layers_match net.layers [1, 1] ∧ net.layers.length + 1 = ([1, 1] : List ℕ).length ∧
          1 ≤ net.layers.length) ∧
     (∀ net, Network.random [1, 1] actId (fun _ => 1) = .ok net →
        layers_match net.layers [1, 1] ∧ net.layers.length + 1 = ([1, 1] : List ℕ).length ∧
          1 ≤ net.layers.length)) ∧
    ((∀ input : List ℚ, layers_match ((net0.forward input).1).layers [1, 1]) ∧
     (∀ (d : List Sample) (loss : LossFnChecked),
        layers_match ((net0.backpropagate loss d).1).layers [1, 1]) ∧
     (∀ (d : List Sample) (loss : LossFnChecked) (rate : ℚ),
        layers_match ((net0.learn d loss rate).1).layers [1, 1]) ∧
     (∀ scale : ℚ,
        layers_match (net0.layers.map (fun l => l.apply_gradient scale)) [1, 1]) ∧
     (∀ input : List ℚ, input.length = ([1, 1] : List ℕ).headD 0 →
        ∃ net2 out, net0.forward input = (net2, .ok out))) :=
  ⟨(C10_network_invariants [1, 1] actId (fun _ => 1)).1 (by decide) (by decide),
   (C10_network_invariants [1, 1] actId (fun _ => 1)).2 net0 (by decide)⟩

/-- **C6**: gradient accumulation is additive.  Starting from a well-formed
network whose accumulators are all zero, running `backpropagate` twice in
succession on the same dataset with no intervening `apply_gradient` leaves
every layer's weight and bias accumulators equal, componentwise, to the sum
of the single-call accumulators with themselves.  A single call starting from
zero accumulators and the same weights is deterministic and produces exactly
the accumulators of `n1`, so the double-run accumulators are the sum of what
two independent single calls would each have produced. -/
theorem C6_backpropagate_additivity (n : Network) (sizes : List ℕ)
    (hwf : layers_match n.layers sizes) (hz : ∀ l ∈ n.layers, zero_grads l)
    (d : List Sample) (loss : LossFnChecked) (n1 n2 : Network)
    (h1 : n.backpropagate loss d = (n1, .ok ()))
    (h2 : n1.backpropagate loss d = (n2, .ok ())) :
    List.Forall₂ (fun a b => a.bias_gradient =
        List.zipWith (fun x y => x + y) b.bias_gradient b.bias_gradient ∧
      a.weight_gradient = List.zipWith (fun r s => List.zipWith (fun x y => x + y) r s)
        b.weight_gradient b.weight_gradient) n2.layers n1.layers := by
  cases d with
  | nil =>
    have e1 : n = n1 := congrArg Prod.fst h1
    have e2 : n1 = n2 := congrArg Prod.fst h2
    rw [← e2, ← e1]
    refine forall₂_refl_of_mem n.layers ?_
    intro x hx
    obtain ⟨hbz, hwz⟩ := hz x hx
    constructor
    · exact (zipWith_add_zero_left x.bias_gradient x.bias_gradient hbz rfl).symm
    · exact (zipWith_add_zero_mat x.weight_gradient x.weight_gradient hwz rfl
        (fun j hj => rfl)).symm
  | cons s rest =>
    have hwf1 : layers_match n1.layers sizes := by
      have hh := backpropagate_WF (s :: rest) n sizes hwf loss
      rw [h1] at hh
      exact hh
    have hfr : List.Forall₂ (fun x y => x.weights = y.weights ∧ x.biases = y.biases ∧
        x.activation_fn = y.activation_fn) n.layers n1.layers :=
      backpropagate_frame (s :: rest) n loss n1 h1
    have hlen : n.layers.length = n1.layers.length := hfr.length_eq
    have hcm : List.Forall₂ core_eq n.layers
        (List.zipWith (fun a b => { a with
          previous_inputs := b.previous_inputs,
          previous_weighted_sums := b.previous_weighted_sums }) n.layers n1.layers) :=
      core_eq_cacheMerge n.layers n1.layers hlen
    have hwfm : layers_match (List.zipWith (fun a b => { a with
        previous_inputs := b.previous_inputs,
        previous_weighted_sums := b.previous_weighted_sums }) n.layers n1.layers) sizes :=
      layers_match_cacheMerge n.layers n1.layers sizes hwf hwf1
    have hgm : grads_match (n1.layers.map (fun l => (l.bias_gradient, l.weight_gradient)))
        sizes := grads_match_of_layers n1.layers sizes hwf1
    have hmerge : Network.addGradsNet { layers := List.zipWith (fun a b => { a with
        previous_inputs := b.previous_inputs,
        previous_weighted_sums := b.previous_weighted_sums }) n.layers n1.layers }
        (n1.layers.map (fun l => (l.bias_gradient, l.weight_gradient))) = n1 := by
      refine Network.ext1 ?_
      exact merge_addGrads_eq n.layers n1.layers sizes hwf hwf1 hfr hz
    have hF : Network.backpropagate { layers := List.zipWith (fun a b => { a with
        previous_inputs := b.previous_inputs,
        previous_weighted_sums := b.previous_weighted_sums }) n.layers n1.layers }
        loss (s :: rest) = (n1, .ok ()) :=
      backpropagate_core_eq n _ hcm loss s rest n1 h1
    have hG := backpropagate_addGrads (s :: rest) _ sizes hwfm
      (n1.layers.map (fun l => (l.bias_gradient, l.weight_gradient))) hgm loss n1 hF
    rw [hmerge] at hG
    have hn2 : n2 = Network.addGradsNet n1
        (n1.layers.map (fun l => (l.bias_gradient, l.weight_gradient))) := by
      have hh := h2.symm.trans hG
      exact congrArg Prod.fst hh
    rw [hn2]
    exact addGrads_self_forall₂ n1.layers

/-- Witness for C6 at the concrete network `net0` and dataset `[sample0]`:
both backpropagate runs leave the (all-zero) state unchanged. -/
theorem C6_backpropagate_additivity_witness :
    layers_match net0.layers [1, 1] ∧ (∀ l ∈ net0.layers, zero_grads l) ∧
    net0.backpropagate MSE [sample0] = (net0, .ok ()) ∧
    List.Forall₂ (fun a b => a.bias_gradient =
        List.zipWith (fun x y => x + y) b.bias_gradient b.bias_gradient ∧
      a.weight_gradient = List.zipWith (fun r s => List.zipWith (fun x y => x + y) r s)
        b.weight_gradient b.weight_gradient) net0.layers net0.layers := by
  have hbp : net0.backpropagate MSE [sample0] = (net0, .ok ()) := by
    simp [Network.backpropagate, Network.forward, forward_layers, Layer.forward,
      Layer.check_input_size, Layer.input_size, layer0, dotProduct, LossFn.partial_gradient,
      MSE, backward_pass, Layer.backpropagation_step, Layer.output_size, bpOuter, bpInner,
      Layer.bias_partial_derivative, actId, net0, List.range_succ, Layer.get_previous_input,
      Except.mapError, sample0]
  exact ⟨by decide, by decide, hbp,
    C6_backpropagate_additivity net0 [1, 1] (by decide) (by decide) [sample0] MSE net0 net0
      hbp hbp⟩
